import Mathlib

/-!
# Embedded DSP pipeline: ring buffer and FIR filter engine

Shallow embedding of `SensorDataBlockProcessing_MA/Src/fifo.c`,
`SensorDataBlockProcessing_FIR/Src/fir_filter.c` and
`SensorDataBlockProcessing_FIR/Src/tim.c`.

Modelling conventions.

* `RX_FIFO` is the memory seen through the two cursors, indexed by the word
  offset from `&RX_FIFO[0]`; the array proper is the offsets `0 .. RXFIFOSIZE-1`.
  A cursor (`rx_put_pt`, `rx_get_pt`) is the offset of the pointer from
  `&RX_FIFO[0]`, so `&RX_FIFO[RXFIFOSIZE]` is the offset `RXFIFOSIZE`.
* `rx_data_t` values are only copied, never computed with, and are natural numbers.
* The location `datapt` of `rx_fifo_get` is a location of the caller, distinct from
  the three objects of `fifo.c`; it is passed in and handed back.
* `float32_t` arithmetic is taken exactly, over the rationals.
* An interrupt inside `rx_fifo_get` runs one complete `rx_fifo_put` between two
  statements of the call; each statement is atomic.
* The history and the kernel of the filter are lists; an access outside them, or
  through a null history pointer, makes `fir_filter_update` return `none`.
-/

namespace Fifo

/-- Number of slots of the backing array (`#define RXFIFOSIZE 300`). -/
def RXFIFOSIZE : Nat := 300

/-- Status returned on overflow and underflow (`#define RXFIFOFAIL 0`). -/
def RXFIFOFAIL : Nat := 0

/-- Status returned on success (`#define RXFIFOSUCCUSS 1`). -/
def RXFIFOSUCCUSS : Nat := 1

/-- The three file-scope objects of `fifo.c`. -/
structure RxFifo where
  /-- Backing storage, by word offset from `&RX_FIFO[0]`. -/
  RX_FIFO : Nat → Nat
  /-- Producer cursor, as an offset from `&RX_FIFO[0]`. -/
  rx_put_pt : Nat
  /-- Consumer cursor, as an offset from `&RX_FIFO[0]`. -/
  rx_get_pt : Nat

/-- Store through a pointer: `*p = v`. -/
def store (mem : Nat → Nat) (p v : Nat) : Nat → Nat :=
  fun j => if j = p then v else mem j

/-- `rx_fifo_init`: `rx_put_pt = rx_get_pt = &RX_FIFO[0]`. -/
def rx_fifo_init (s : RxFifo) : RxFifo :=
  { s with rx_put_pt := 0, rx_get_pt := 0 }

/-- `rx_fifo_put`: returns the status and the state after the call. -/
def rx_fifo_put (s : RxFifo) (data : Nat) : Nat × RxFifo :=
  let rx_next_put_pt := s.rx_put_pt + 1
  let rx_next_put_pt := if rx_next_put_pt = RXFIFOSIZE then 0 else rx_next_put_pt
  if rx_next_put_pt = s.rx_get_pt then
    (RXFIFOFAIL, s)
  else
    (RXFIFOSUCCUSS,
      { s with RX_FIFO := store s.RX_FIFO s.rx_put_pt data, rx_put_pt := rx_next_put_pt })

/-- `rx_fifo_get`: takes the state and the current content of `*datapt`; returns the
status, the state after the call and the content of `*datapt` after the call. -/
def rx_fifo_get (s : RxFifo) (datapt : Nat) : Nat × RxFifo × Nat :=
  if s.rx_put_pt = s.rx_get_pt then
    (RXFIFOFAIL, s, datapt)
  else
    let datapt := s.RX_FIFO s.rx_get_pt
    let rx_get_pt := s.rx_get_pt + 1
    let rx_get_pt := if rx_get_pt = RXFIFOSIZE then 0 else rx_get_pt
    (RXFIFOSUCCUSS, { s with rx_get_pt := rx_get_pt }, datapt)

/-- A call of the producer or of the consumer. -/
inductive Call where
  | put (data : Nat)
  | get
  deriving DecidableEq, Repr

/-- The FIFO together with the caller's output location `*datapt`. -/
structure Sys where
  fifo : RxFifo
  datapt : Nat

/-- One call: the status and the system after it. -/
def call (σ : Sys) : Call → Nat × Sys
  | Call.put data =>
    let r := rx_fifo_put σ.fifo data
    (r.1, { σ with fifo := r.2 })
  | Call.get =>
    let r := rx_fifo_get σ.fifo σ.datapt
    (r.1, { fifo := r.2.1, datapt := r.2.2 })

/-- What one call leaves behind for an observer: the call, its status and the content
of `*datapt` when it returned. -/
structure Event where
  op : Call
  status : Nat
  datapt : Nat
  deriving DecidableEq, Repr

/-- Sequential execution of a list of calls: the events in order. -/
def trace (σ : Sys) : List Call → List Event
  | [] => []
  | c :: cs =>
    let r := call σ c
    { op := c, status := r.1, datapt := r.2.datapt } :: trace r.2 cs

/-- Sequential execution of a list of calls: the system at the end. -/
def final (σ : Sys) : List Call → Sys
  | [] => σ
  | c :: cs => final (call σ c).2 cs

/-- Values passed to the puts of a trace, in order. -/
def putValues : List Event → List Nat
  | [] => []
  | e :: es =>
    match e.op with
    | Call.put data => data :: putValues es
    | Call.get => putValues es

/-- Values delivered by the gets of a trace that did not fail, in order. -/
def getValues : List Event → List Nat
  | [] => []
  | e :: es =>
    match e.op with
    | Call.put _ => getValues es
    | Call.get => if e.status = RXFIFOFAIL then getValues es else e.datapt :: getValues es

/-- States the three functions can produce: any state after `rx_fifo_init`, then any
calls of `rx_fifo_put` and `rx_fifo_get`. -/
inductive Reachable : RxFifo → Prop where
  | init (s : RxFifo) : Reachable (rx_fifo_init s)
  | put (s : RxFifo) (data : Nat) : Reachable s → Reachable (rx_fifo_put s data).2
  | get (s : RxFifo) (datapt : Nat) : Reachable s → Reachable (rx_fifo_get s datapt).2.1

/-- Number of unread entries: the circular distance from the consumer cursor to the
producer cursor. -/
def count (s : RxFifo) : Nat :=
  (s.rx_put_pt + RXFIFOSIZE - s.rx_get_pt) % RXFIFOSIZE

/-- Slots holding an unread entry: from the consumer cursor up to, but excluding, the
producer cursor, taken circularly. -/
def unreadSlots (s : RxFifo) : List Nat :=
  (List.range (count s)).map (fun k => (s.rx_get_pt + k) % RXFIFOSIZE)

/-- The unread entries, oldest first. -/
def unread (s : RxFifo) : List Nat :=
  (unreadSlots s).map s.RX_FIFO

/-- Drain: call `rx_fifo_get` until it fails, at most `n` times; the values delivered,
in order, and the system when the drain stopped. -/
def drain : Nat → Sys → List Nat × Sys
  | 0, σ => ([], σ)
  | n + 1, σ =>
    let r := rx_fifo_get σ.fifo σ.datapt
    if r.1 = RXFIFOFAIL then ([], { fifo := r.2.1, datapt := r.2.2 })
    else
      let rest := drain n { fifo := r.2.1, datapt := r.2.2 }
      (r.2.2 :: rest.1, rest.2)

/-- Both cursors are slot indices of the array. -/
def InRange (s : RxFifo) : Prop :=
  s.rx_put_pt < RXFIFOSIZE ∧ s.rx_get_pt < RXFIFOSIZE

/-- The system made of a FIFO state and a content of the caller's output location. -/
def sys (s : RxFifo) (datapt : Nat) : Sys := { fifo := s, datapt := datapt }

/-- An example state before any init: zeroed storage, stray cursors. -/
def exState : RxFifo := ⟨fun _ => 0, 5, 9⟩

/-- Example calls: two puts, a get, a put and two gets. -/
def exCalls : List Call := [Call.put 7, Call.put 8, Call.get, Call.put 9, Call.get, Call.get]

/-- Example: the state after an init and the puts of 7 and 8. -/
def twoState : RxFifo := (rx_fifo_put (rx_fifo_put (rx_fifo_init exState) 7).2 8).2

/-- Example: the state after an init and the puts of 0, 1, ..., 298. -/
def fullState : RxFifo :=
  (final (sys (rx_fifo_init exState) 0) ((List.range 299).map Call.put)).fifo

/-- Example: after an init, 299 puts, 299 gets and one more put: the consumer cursor is
at the last slot, 299, and one entry is unread. -/
def wrapState : RxFifo :=
  (final (sys (rx_fifo_init exState) 0)
    ((List.range 299).map Call.put ++ List.replicate 299 Call.get ++ [Call.put 7])).fifo

/-- Statement of `rx_fifo_get`: `*datapt = *rx_get_pt;`. -/
def get_load (σ : Sys) : Sys :=
  { σ with datapt := σ.fifo.RX_FIFO σ.fifo.rx_get_pt }

/-- Statement of `rx_fifo_get`: `rx_get_pt++;`. The cursor may now be one past the end. -/
def get_incr (σ : Sys) : Sys :=
  { σ with fifo := { σ.fifo with rx_get_pt := σ.fifo.rx_get_pt + 1 } }

/-- Statement of `rx_fifo_get`: `rx_get_pt = &RX_FIFO[0];`, the body of the wrap test. -/
def get_wrap (σ : Sys) : Sys :=
  { σ with fifo := { σ.fifo with rx_get_pt := 0 } }

/-- A run of the main loop's `rx_fifo_get` with the interrupt pending: the system and
the status of the interrupt's `rx_fifo_put`, `none` while it has not fired. -/
structure Run where
  sys : Sys
  putStatus : Option Nat

/-- The interrupt fires at the statement boundary `pos` when that is its boundary `k`:
one complete `rx_fifo_put data` runs there. -/
def fire (k pos data : Nat) (r : Run) : Run :=
  if k = pos then
    { sys := (call r.sys (Call.put data)).2, putStatus := some (call r.sys (Call.put data)).1 }
  else r

/-- One `rx_fifo_get` call, statement by statement, with one complete `rx_fifo_put data`
run at the statement boundary `k`: 0 before the empty test, 1 after the test, 2 after
the load, 3 after the increment, 4 after the wrap test (before the wrap when the test
holds), 5 before the final `return`. When the call returns at the empty test, the
interrupt of a later boundary fires after the return. The result is the status of the get, the status of
the put and the system at the end. -/
def get_with_interrupt (k data : Nat) (σ : Sys) : Nat × Option Nat × Sys :=
  let r := fire k 0 data { sys := σ, putStatus := none }
  if r.sys.fifo.rx_put_pt = r.sys.fifo.rx_get_pt then
    let r := if 1 ≤ k ∧ k ≤ 5 then fire k k data r else r
    (RXFIFOFAIL, r.putStatus, r.sys)
  else
    let r := fire k 1 data r
    let r := { r with sys := get_load r.sys }
    let r := fire k 2 data r
    let r := { r with sys := get_incr r.sys }
    let r := fire k 3 data r
    if r.sys.fifo.rx_get_pt = RXFIFOSIZE then
      let r := fire k 4 data r
      let r := { r with sys := get_wrap r.sys }
      let r := fire k 5 data r
      (RXFIFOSUCCUSS, r.putStatus, r.sys)
    else
      let r := fire k 4 data r
      let r := fire k 5 data r
      (RXFIFOSUCCUSS, r.putStatus, r.sys)

/-- Sequential order: the put first, then the get. -/
def put_then_get (data : Nat) (σ : Sys) : Nat × Option Nat × Sys :=
  let p := call σ (Call.put data)
  let g := call p.2 Call.get
  (g.1, some p.1, g.2)

/-- Sequential order: the get first, then the put. -/
def get_then_put (data : Nat) (σ : Sys) : Nat × Option Nat × Sys :=
  let g := call σ Call.get
  let p := call g.2 (Call.put data)
  (g.1, some p.1, p.2)

end Fifo

namespace Fir

/-- The filter structure `fir_filter_t`. `buff` is `none` for a null pointer and
otherwise the block it points to; `kernel` is the caller's coefficient array. -/
structure fir_filter_t where
  buff : Option (List ℚ)
  buff_idx : Nat
  kernel : List ℚ
  kernel_len : Nat
  out : ℚ
  deriving DecidableEq

/-- The library allocator `calloc(n, sizeof(float32_t))`: a block of `n` zeros when the
heap has room, a null pointer otherwise. -/
def calloc (room : Bool) (n : Nat) : Option (List ℚ) :=
  if room then some (List.replicate n 0) else none

/-- `fir_fiter_init`; `room` says whether the allocator can serve the request. The
function returns `void`: the structure after the call is all there is. -/
def fir_fiter_init (room : Bool) (fir : fir_filter_t) (fltr_kernel : List ℚ)
    (fltr_kernel_len : Nat) : fir_filter_t :=
  let fir := { fir with buff_idx := 0 }
  let fir := { fir with out := 0 }
  let fir := { fir with kernel := fltr_kernel }
  let fir := { fir with kernel_len := fltr_kernel_len }
  { fir with buff := calloc room fir.kernel_len }

/-- Body of the convolution loop for tap `i`, on the loop state `(sum_idx, out)`:
`sum_idx` steps back by one with wrap to `kernel_len - 1` (the body only runs when
`kernel_len ≥ 1`), then `out = kernel[i] * buff[sum_idx]`. An access outside `kernel`
or `buff` gives `none`. -/
def fir_tap (kernel buff : List ℚ) (kernel_len : Nat) (st : Nat × ℚ) (i : Nat) :
    Option (Nat × ℚ) :=
  let sum_idx := if st.1 > 0 then st.1 - 1 else kernel_len - 1
  match kernel[i]?, buff[sum_idx]? with
  | some k, some h => some (sum_idx, k * h)
  | _, _ => none

/-- The loop `for (int i = 0; i < fir->kernel_len; i++)`, from the loop state `st`. -/
def fir_loop (kernel buff : List ℚ) (kernel_len : Nat) (st : Nat × ℚ) : Option (Nat × ℚ) :=
  (List.range kernel_len).foldlM (fir_tap kernel buff kernel_len) st

/-- `fir_filter_update`: the structure after the call and the value returned, or `none`
when the call dereferences a null pointer or leaves `buff` or `kernel`. `buff_idx` is
a `uint32_t`, so the increment is modulo `2 ^ 32`. -/
def fir_filter_update (fir : fir_filter_t) (curr_sample : ℚ) : Option (fir_filter_t × ℚ) :=
  match fir.buff with
  | none => none
  | some buff =>
    if fir.buff_idx < buff.length then
      let buff := buff.set fir.buff_idx curr_sample
      let buff_idx := (fir.buff_idx + 1) % 2 ^ 32
      let buff_idx := if buff_idx = fir.kernel_len then 0 else buff_idx
      let out : ℚ := 0
      let sum_idx := buff_idx
      match fir_loop fir.kernel buff fir.kernel_len (sum_idx, out) with
      | none => none
      | some r => some ({ fir with buff := some buff, buff_idx := buff_idx, out := r.2 }, r.2)
    else none

/-- Feed the samples to `fir_filter_update` one after the other: the structure at the
end and the values returned, in order. -/
def fir_run (fir : fir_filter_t) : List ℚ → Option (fir_filter_t × List ℚ)
  | [] => some (fir, [])
  | x :: xs =>
    match fir_filter_update fir x with
    | none => none
    | some r =>
      match fir_run r.1 xs with
      | none => none
      | some rest => some (rest.1, r.2 :: rest.2)

/-- The causal FIR sum of the specification: the sum over the taps `i` in `[0, L)` of
`kernel[i] * history[(c - 1 - i) mod L]`. -/
def firSum (kernel history : List ℚ) (c L : Nat) : ℚ :=
  ((List.range L).map
    (fun i => kernel.getD i 0 * history.getD (((c : Int) - 1 - (i : Int)) % (L : Int)).toNat 0)).sum

/-- The cold-start sum of the specification for the `n`-th output: the sum over `i` in
`[0, n)` of `kernel[i] * x_(n-i)`, the samples being `x_1, x_2, ...`. -/
def coldStartSum (kernel xs : List ℚ) (n : Nat) : ℚ :=
  ((List.range n).map (fun i => kernel.getD i 0 * xs.getD (n - i - 1) 0)).sum

/-- An example filter structure before any init: null history, stray fields. -/
def exFir : fir_filter_t := ⟨none, 7, [], 9, 3⟩

/-- The value `fir_fiter_init` hands back to its caller: the function is declared
`void fir_fiter_init(...)`, so there is none, whatever the allocator did. -/
def fir_fiter_init_result (_room : Bool) (_fir : fir_filter_t) (_fltr_kernel : List ℚ)
    (_fltr_kernel_len : Nat) : Unit :=
  ()

/-- The loop body `fir_tap` with a log: each run of the body appends the pair of the
kernel index `i` and the history index `sum_idx` it reads. -/
def fir_tap_log (kernel buff : List ℚ) (kernel_len : Nat)
    (st : (Nat × ℚ) × List (Nat × Nat)) (i : Nat) : Option ((Nat × ℚ) × List (Nat × Nat)) :=
  match fir_tap kernel buff kernel_len st.1 i with
  | none => none
  | some st1 => some (st1, st.2 ++ [(i, st1.1)])

/-- The loop `fir_loop` with the log of the index pairs read, one per run of the body. -/
def fir_loop_log (kernel buff : List ℚ) (kernel_len : Nat) (st : Nat × ℚ) :
    Option ((Nat × ℚ) × List (Nat × Nat)) :=
  (List.range kernel_len).foldlM (fir_tap_log kernel buff kernel_len) (st, [])

/-- The history index of the standard causal FIR definition for tap `i`, write cursor
`c` (after the advance) and length `L`: `(c - 1 - i) mod L`. -/
def causalIdx (c i L : Nat) : Nat :=
  (((c : Int) - 1 - (i : Int)) % (L : Int)).toNat

/-- The steady-state sum of the specification for the `n`-th output: the sum over `i` in
`[0, L)` of `kernel[i] * x_(n-i)`, the samples being `x_1, x_2, ...`. -/
def steadySum (kernel xs : List ℚ) (n L : Nat) : ℚ :=
  ((List.range L).map (fun i => kernel.getD i 0 * xs.getD (n - i - 1) 0)).sum

/-- The sample `x_j` of the sequence `x_1, x_2, ...`, zero when not supplied. -/
def sample (xs : List ℚ) (j : Nat) : ℚ :=
  if j = 0 then 0 else xs.getD (j - 1) 0

end Fir

namespace Tim

/-- The registers `tim2_1hz_interrupt_init` writes: `RCC->APB1ENR`, the `TIM2` registers
and the enable bit of the `TIM2` line in the interrupt controller. -/
structure Regs where
  APB1ENR : Nat
  PSC : Nat
  ARR : Nat
  CNT : Nat
  CR1 : Nat
  DIER : Nat
  tim2_irq_enabled : Bool
  deriving DecidableEq, Repr

/-- Bit `TIM2EN` (`1U<<0`). -/
def TIM2EN : Nat := 1 <<< 0

/-- Bit `CR1_CEN` (`1U<<0`). -/
def CR1_CEN : Nat := 1 <<< 0

/-- Bit `DIER_UIE` (`1U<<0`). -/
def DIER_UIE : Nat := 1 <<< 0

/-- The timer clock stated in `tim.c` (`APB1 Timer clock is 100mhz`), in Hz. -/
def TIM2_CLOCK_HZ : Nat := 100000000

/-- `tim2_1hz_interrupt_init`: the registers after the call. -/
def tim2_1hz_interrupt_init (r : Regs) : Regs :=
  let r := { r with APB1ENR := TIM2EN }
  let r := { r with PSC := 10000 - 1 }
  let r := { r with ARR := 10 - 1 }
  let r := { r with CNT := 0 }
  let r := { r with CR1 := CR1_CEN }
  let r := { r with DIER := r.DIER ||| DIER_UIE }
  { r with tim2_irq_enabled := true }

/-- Update-interrupt rate of a timer, in Hz: `timer_clock / ((PSC + 1) * (ARR + 1))`. -/
def updateRate (clock : Nat) (r : Regs) : ℚ :=
  (clock : ℚ) / (((r.PSC + 1) * (r.ARR + 1) : Nat) : ℚ)

/-- Example registers before the call: all zero. -/
def exRegs : Regs := ⟨0, 0, 0, 0, 0, 0, false⟩

end Tim

namespace Fifo

/-! ## Helper lemmas on the ring buffer -/

theorem inRange_init (s : RxFifo) : InRange (rx_fifo_init s) := by
  simp [InRange, rx_fifo_init, RXFIFOSIZE]

theorem inRange_put (s : RxFifo) (data : Nat) (h : InRange s) :
    InRange (rx_fifo_put s data).2 := by
  unfold InRange rx_fifo_put RXFIFOSIZE at *
  obtain ⟨hp, hg⟩ := h
  dsimp only
  split_ifs <;> first
    | (simp_all; done)
    | (simp_all; omega)

theorem inRange_get (s : RxFifo) (datapt : Nat) (h : InRange s) :
    InRange (rx_fifo_get s datapt).2.1 := by
  unfold InRange rx_fifo_get RXFIFOSIZE at *
  obtain ⟨hp, hg⟩ := h
  dsimp only
  split_ifs <;> first
    | (simp_all; done)
    | (simp_all; omega)

theorem inRange_of_reachable {s : RxFifo} (h : Reachable s) : InRange s := by
  induction h with
  | init s => exact inRange_init s
  | put s data _ ih => exact inRange_put s data ih
  | get s datapt _ ih => exact inRange_get s datapt ih

theorem count_lt (s : RxFifo) : count s < RXFIFOSIZE := by
  unfold count RXFIFOSIZE
  omega

theorem put_status (s : RxFifo) (data : Nat) :
    (rx_fifo_put s data).1 = RXFIFOFAIL ∨ (rx_fifo_put s data).1 = RXFIFOSUCCUSS := by
  unfold rx_fifo_put
  dsimp only
  split_ifs <;> simp

theorem get_status (s : RxFifo) (datapt : Nat) :
    (rx_fifo_get s datapt).1 = RXFIFOFAIL ∨ (rx_fifo_get s datapt).1 = RXFIFOSUCCUSS := by
  unfold rx_fifo_get
  dsimp only
  split_ifs <;> simp

/-- In range, a put fails exactly when `RXFIFOSIZE - 1` entries are unread. -/
theorem put_fail_iff_count (s : RxFifo) (data : Nat) (h : InRange s) :
    (rx_fifo_put s data).1 = RXFIFOFAIL ↔ count s = RXFIFOSIZE - 1 := by
  unfold InRange rx_fifo_put count RXFIFOSIZE RXFIFOFAIL RXFIFOSUCCUSS at *
  obtain ⟨hp, hg⟩ := h
  dsimp only
  split_ifs <;> simp <;> omega

/-- A failed put leaves the state as it was. -/
theorem put_fail_state (s : RxFifo) (data : Nat)
    (h : (rx_fifo_put s data).1 = RXFIFOFAIL) : (rx_fifo_put s data).2 = s := by
  unfold rx_fifo_put RXFIFOFAIL RXFIFOSUCCUSS at *
  dsimp only at *
  split_ifs at * <;> simp_all

/-- In range, a get fails exactly when no entry is unread. -/
theorem get_fail_iff_count (s : RxFifo) (datapt : Nat) (h : InRange s) :
    (rx_fifo_get s datapt).1 = RXFIFOFAIL ↔ count s = 0 := by
  unfold InRange rx_fifo_get count RXFIFOSIZE RXFIFOFAIL RXFIFOSUCCUSS at *
  obtain ⟨hp, hg⟩ := h
  dsimp only
  split_ifs <;> simp <;> omega

/-- A failed get leaves the state and the output location as they were. -/
theorem get_fail_state (s : RxFifo) (datapt : Nat)
    (h : (rx_fifo_get s datapt).1 = RXFIFOFAIL) : (rx_fifo_get s datapt).2 = (s, datapt) := by
  unfold rx_fifo_get RXFIFOFAIL RXFIFOSUCCUSS at *
  dsimp only at *
  split_ifs at *
  simp_all

theorem count_put (s : RxFifo) (data : Nat) (h : InRange s)
    (hs : (rx_fifo_put s data).1 ≠ RXFIFOFAIL) :
    count (rx_fifo_put s data).2 = count s + 1 := by
  unfold InRange rx_fifo_put count RXFIFOSIZE RXFIFOFAIL RXFIFOSUCCUSS at *
  obtain ⟨hp, hg⟩ := h
  dsimp only at *
  split_ifs at * <;> simp_all <;> omega

theorem count_get (s : RxFifo) (datapt : Nat) (h : InRange s)
    (hs : (rx_fifo_get s datapt).1 ≠ RXFIFOFAIL) :
    count s = count (rx_fifo_get s datapt).2.1 + 1 := by
  unfold InRange rx_fifo_get count RXFIFOSIZE RXFIFOFAIL RXFIFOSUCCUSS at *
  obtain ⟨hp, hg⟩ := h
  dsimp only at *
  split_ifs at * <;> simp_all <;> omega

theorem put_success_fields (s : RxFifo) (data : Nat)
    (hs : (rx_fifo_put s data).1 ≠ RXFIFOFAIL) :
    (rx_fifo_put s data).2.RX_FIFO = store s.RX_FIFO s.rx_put_pt data ∧
    (rx_fifo_put s data).2.rx_get_pt = s.rx_get_pt ∧
    (rx_fifo_put s data).2.rx_put_pt
      = (if s.rx_put_pt + 1 = RXFIFOSIZE then 0 else s.rx_put_pt + 1) := by
  unfold rx_fifo_put RXFIFOFAIL RXFIFOSUCCUSS at *
  dsimp only at *
  split_ifs at * <;> simp_all

theorem get_success_fields (s : RxFifo) (datapt : Nat)
    (hs : (rx_fifo_get s datapt).1 ≠ RXFIFOFAIL) :
    (rx_fifo_get s datapt).2.1.RX_FIFO = s.RX_FIFO ∧
    (rx_fifo_get s datapt).2.1.rx_put_pt = s.rx_put_pt ∧
    (rx_fifo_get s datapt).2.1.rx_get_pt
      = (if s.rx_get_pt + 1 = RXFIFOSIZE then 0 else s.rx_get_pt + 1) ∧
    (rx_fifo_get s datapt).2.2 = s.RX_FIFO s.rx_get_pt := by
  unfold rx_fifo_get RXFIFOFAIL RXFIFOSUCCUSS at *
  dsimp only at *
  split_ifs at * <;> simp_all

/-- The producer slot is not among the unread slots. -/
theorem put_pt_not_unread (s : RxFifo) : s.rx_put_pt ∉ unreadSlots s := by
  unfold unreadSlots
  intro hm
  obtain ⟨k, hk, he⟩ := List.mem_map.mp hm
  rw [List.mem_range] at hk
  unfold count RXFIFOSIZE at *
  omega

/-- A successful put appends its slot to the unread slots. -/
theorem unreadSlots_put (s : RxFifo) (data : Nat) (h : InRange s)
    (hs : (rx_fifo_put s data).1 ≠ RXFIFOFAIL) :
    unreadSlots (rx_fifo_put s data).2 = unreadSlots s ++ [s.rx_put_pt] := by
  have hc := count_put s data h hs
  obtain ⟨_, hg, _⟩ := put_success_fields s data hs
  unfold unreadSlots
  rw [hc, List.range_succ, List.map_append, hg]
  congr 1
  simp only [List.map_cons, List.map_nil, List.cons.injEq, and_true]
  unfold InRange count RXFIFOSIZE at *
  omega

/-- A successful put appends its value to the unread entries. -/
theorem unread_put (s : RxFifo) (data : Nat) (h : InRange s)
    (hs : (rx_fifo_put s data).1 ≠ RXFIFOFAIL) :
    unread (rx_fifo_put s data).2 = unread s ++ [data] := by
  obtain ⟨hm, _, _⟩ := put_success_fields s data hs
  unfold unread
  rw [unreadSlots_put s data h hs, List.map_append, hm]
  congr 1
  · apply List.map_congr_left
    intro j hj
    have hne : j ≠ s.rx_put_pt := fun e => put_pt_not_unread s (e ▸ hj)
    simp [store, hne]
  · simp [store]

/-- A successful get removes the consumer slot from the front of the unread slots. -/
theorem unreadSlots_get (s : RxFifo) (datapt : Nat) (h : InRange s)
    (hs : (rx_fifo_get s datapt).1 ≠ RXFIFOFAIL) :
    unreadSlots s = s.rx_get_pt :: unreadSlots (rx_fifo_get s datapt).2.1 := by
  have hc := count_get s datapt h hs
  obtain ⟨_, _, hg, _⟩ := get_success_fields s datapt hs
  unfold unreadSlots
  rw [hc, List.range_succ_eq_map, List.map_cons, List.map_map, hg]
  congr 1
  · unfold InRange RXFIFOSIZE at *
    omega
  · apply List.map_congr_left
    intro k _
    unfold InRange RXFIFOSIZE at *
    simp only [Function.comp]
    split_ifs <;> omega

/-- A successful get delivers the oldest unread entry and leaves the others. -/
theorem unread_get (s : RxFifo) (datapt : Nat) (h : InRange s)
    (hs : (rx_fifo_get s datapt).1 ≠ RXFIFOFAIL) :
    unread s = (rx_fifo_get s datapt).2.2 :: unread (rx_fifo_get s datapt).2.1 := by
  obtain ⟨hm, _, _, hd⟩ := get_success_fields s datapt hs
  unfold unread
  rw [unreadSlots_get s datapt h hs, List.map_cons, hm, hd]

theorem unread_length (s : RxFifo) : (unread s).length = count s := by
  simp [unread, unreadSlots]

theorem trace_append (σ : Sys) (as bs : List Call) :
    trace σ (as ++ bs) = trace σ as ++ trace (final σ as) bs := by
  induction as generalizing σ with
  | nil => rfl
  | cons a as ih => simp [trace, final, ih]

theorem final_append (σ : Sys) (as bs : List Call) :
    final σ (as ++ bs) = final (final σ as) bs := by
  induction as generalizing σ with
  | nil => rfl
  | cons a as ih => simp [final, ih]

theorem inRange_call (σ : Sys) (c : Call) (h : InRange σ.fifo) :
    InRange (call σ c).2.fifo := by
  cases c with
  | put data => exact inRange_put σ.fifo data h
  | get => exact inRange_get σ.fifo σ.datapt h

theorem inRange_final (σ : Sys) (cs : List Call) (h : InRange σ.fifo) :
    InRange (final σ cs).fifo := by
  induction cs generalizing σ with
  | nil => exact h
  | cons c cs ih => exact ih _ (inRange_call σ c h)

/-- Along a run without failure, what was unread at the start followed by the values
put is what the gets delivered followed by what is unread at the end. -/
theorem trace_conservation (cs : List Call) (σ : Sys) (h : InRange σ.fifo)
    (hok : ∀ e ∈ trace σ cs, e.status ≠ RXFIFOFAIL) :
    unread σ.fifo ++ putValues (trace σ cs)
      = getValues (trace σ cs) ++ unread (final σ cs).fifo := by
  induction cs generalizing σ with
  | nil => simp [trace, final, putValues, getValues]
  | cons c cs ih =>
    have hrest : ∀ e ∈ trace (call σ c).2 cs, e.status ≠ RXFIFOFAIL := by
      intro e he
      exact hok e (by simp [trace, he])
    have hhead : (call σ c).1 ≠ RXFIFOFAIL := by
      have := hok ⟨c, (call σ c).1, (call σ c).2.datapt⟩ (by simp [trace])
      exact this
    have ih2 := ih (call σ c).2 (inRange_call σ c h) hrest
    cases c with
    | put data =>
      have hu := unread_put σ.fifo data h hhead
      simp only [call] at ih2 hu ⊢
      simp only [trace, putValues, getValues, final, call]
      rw [← ih2, hu]
      simp
    | get =>
      have hu := unread_get σ.fifo σ.datapt h hhead
      have hst : ¬ (rx_fifo_get σ.fifo σ.datapt).1 = RXFIFOFAIL := hhead
      simp only [call] at ih2 hu ⊢
      simp only [trace, putValues, getValues, final, call, hst, if_false]
      rw [hu, List.cons_append, ih2]
      simp

theorem unread_init (s : RxFifo) : unread (rx_fifo_init s) = [] := by
  simp [unread, unreadSlots, count, rx_fifo_init, RXFIFOSIZE]

/-- Claim C1. FIFO ordering. For every sequence of `rx_fifo_put` and `rx_fifo_get` calls run
one after the other from `rx_fifo_init` (whatever the state before the init and the
content of the output location) in which no call returns `RXFIFOFAIL`, the values the
gets deliver are, in order, the prefix of the same length of the values passed to the
puts. -/
theorem fifo_ordering (s0 : RxFifo) (d0 : Nat) (cs : List Call)
    (hok : ∀ e ∈ trace (sys (rx_fifo_init s0) d0) cs, e.status ≠ RXFIFOFAIL) :
    (getValues (trace (sys (rx_fifo_init s0) d0) cs)).length
        ≤ (putValues (trace (sys (rx_fifo_init s0) d0) cs)).length ∧
    getValues (trace (sys (rx_fifo_init s0) d0) cs)
      = (putValues (trace (sys (rx_fifo_init s0) d0) cs)).take
          (getValues (trace (sys (rx_fifo_init s0) d0) cs)).length := by
  have h := trace_conservation cs (sys (rx_fifo_init s0) d0) (inRange_init s0) hok
  simp only [sys, unread_init, List.nil_append] at h
  simp only [sys]
  rw [h]
  simp

/-- Witness of claim C1: two puts, a get, a put and two gets after an init. -/
theorem fifo_ordering_witness :
    (∀ e ∈ trace (sys (rx_fifo_init exState) 0) exCalls, e.status ≠ RXFIFOFAIL) ∧
    putValues (trace (sys (rx_fifo_init exState) 0) exCalls) = [7, 8, 9] ∧
    (getValues (trace (sys (rx_fifo_init exState) 0) exCalls)).length
        ≤ (putValues (trace (sys (rx_fifo_init exState) 0) exCalls)).length ∧
    getValues (trace (sys (rx_fifo_init exState) 0) exCalls)
      = (putValues (trace (sys (rx_fifo_init exState) 0) exCalls)).take
          (getValues (trace (sys (rx_fifo_init exState) 0) exCalls)).length :=
  ⟨by decide, by decide, fifo_ordering exState 0 exCalls (by decide)⟩

/-- While room is left, consecutive puts all succeed and each adds one unread entry. -/
theorem puts_succeed (vs : List Nat) (σ : Sys) (h : InRange σ.fifo)
    (hroom : count σ.fifo + vs.length ≤ RXFIFOSIZE - 1) :
    (trace σ (vs.map Call.put)).map Event.status = List.replicate vs.length RXFIFOSUCCUSS ∧
    count (final σ (vs.map Call.put)).fifo = count σ.fifo + vs.length := by
  induction vs generalizing σ with
  | nil => simp [trace, final]
  | cons v vs ih =>
    simp only [List.length_cons] at hroom
    have hne : (rx_fifo_put σ.fifo v).1 ≠ RXFIFOFAIL := by
      intro hf
      have := (put_fail_iff_count σ.fifo v h).mp hf
      omega
    have hs : (rx_fifo_put σ.fifo v).1 = RXFIFOSUCCUSS := by
      rcases put_status σ.fifo v with h1 | h1
      · exact absurd h1 hne
      · exact h1
    have hc := count_put σ.fifo v h hne
    have ih2 := ih (call σ (Call.put v)).2 (inRange_call σ (Call.put v) h)
      (by simp only [call]; omega)
    simp only [call] at ih2
    simp only [List.map_cons, trace, final, call, List.length_cons, List.replicate_succ, hs]
    refine ⟨?_, ?_⟩
    · rw [ih2.1]
    · rw [ih2.2, hc]; omega

/-- Claim C2. Ring buffer capacity. From every empty state reachable from `rx_fifo_init`
(producer cursor equal to consumer cursor, at any position) and for every choice of
`RXFIFOSIZE` values, putting them one after the other succeeds for the first
`RXFIFOSIZE - 1 = 299` and fails for the 300th. -/
theorem fifo_capacity (s : RxFifo) (d : Nat) (vs : List Nat) (hr : Reachable s)
    (hempty : s.rx_put_pt = s.rx_get_pt) (hlen : vs.length = RXFIFOSIZE) :
    RXFIFOSIZE - 1 = 299 ∧
    (trace (sys s d) (vs.map Call.put)).map Event.status
      = List.replicate (RXFIFOSIZE - 1) RXFIFOSUCCUSS ++ [RXFIFOFAIL] := by
  refine ⟨rfl, ?_⟩
  show (trace (sys s d) (vs.map Call.put)).map Event.status
      = List.replicate 299 RXFIFOSUCCUSS ++ [RXFIFOFAIL]
  have hin := inRange_of_reachable hr
  have hc0 : count s = 0 := by
    unfold count RXFIFOSIZE
    unfold InRange RXFIFOSIZE at hin
    omega
  obtain ⟨ws, v, rfl⟩ : ∃ ws v, vs = ws ++ [v] := by
    rcases List.eq_nil_or_concat vs with h | ⟨ws, v, h⟩
    · rw [h] at hlen; simp [RXFIFOSIZE] at hlen
    · exact ⟨ws, v, by simpa using h⟩
  have hws : ws.length = 299 := by
    simp [RXFIFOSIZE] at hlen
    exact hlen
  have hp := puts_succeed ws (sys s d) hin (by simp only [sys]; rw [hc0, hws]; simp [RXFIFOSIZE])
  rw [List.map_append, trace_append, List.map_append, hp.1, hws]
  congr 1
  have hfull : count (final (sys s d) (ws.map Call.put)).fifo = RXFIFOSIZE - 1 := by
    rw [hp.2]; simp only [sys]; rw [hc0, hws]; simp [RXFIFOSIZE]
  have hfail := (put_fail_iff_count _ v (inRange_final (sys s d) (ws.map Call.put) hin)).mpr hfull
  simp [trace, call, hfail]

/-- Witness of claim C2: the empty state with both cursors at slot 1, reached by an init,
a put and a get. -/
theorem fifo_capacity_witness :
    Reachable (rx_fifo_get (rx_fifo_put (rx_fifo_init exState) 7).2 0).2.1 ∧
    (rx_fifo_get (rx_fifo_put (rx_fifo_init exState) 7).2 0).2.1.rx_put_pt = 1 ∧
    (rx_fifo_get (rx_fifo_put (rx_fifo_init exState) 7).2 0).2.1.rx_get_pt = 1 ∧
    (trace (sys (rx_fifo_get (rx_fifo_put (rx_fifo_init exState) 7).2 0).2.1 0)
        ((List.range 300).map Call.put)).map Event.status
      = List.replicate (RXFIFOSIZE - 1) RXFIFOSUCCUSS ++ [RXFIFOFAIL] :=
  ⟨Reachable.get _ 0 (Reachable.put _ 7 (Reachable.init _)), by decide, by decide,
    (fifo_capacity _ 0 (List.range 300)
      (Reachable.get _ 0 (Reachable.put _ 7 (Reachable.init _))) (by decide)
      (by simp [RXFIFOSIZE])).2⟩

/-- A drain given more calls than there are unread entries delivers the unread entries
in order and stops on an empty buffer. -/
theorem drain_unread (n : Nat) (σ : Sys) (h : InRange σ.fifo) (hn : count σ.fifo < n) :
    (drain n σ).1 = unread σ.fifo ∧ count (drain n σ).2.fifo = 0 := by
  induction n generalizing σ with
  | zero => omega
  | succ n ih =>
    by_cases hf : (rx_fifo_get σ.fifo σ.datapt).1 = RXFIFOFAIL
    · have hc := (get_fail_iff_count σ.fifo σ.datapt h).mp hf
      have hst := get_fail_state σ.fifo σ.datapt hf
      have hu : unread σ.fifo = [] := by
        apply List.eq_nil_of_length_eq_zero
        rw [unread_length, hc]
      simp only [drain, hf, if_true, hst, hu, hc, and_self]
    · have hc := count_get σ.fifo σ.datapt h hf
      have hu := unread_get σ.fifo σ.datapt h hf
      have ih2 := ih ⟨(rx_fifo_get σ.fifo σ.datapt).2.1, (rx_fifo_get σ.fifo σ.datapt).2.2⟩
        (inRange_get σ.fifo σ.datapt h) (by simp only; omega)
      simp only at ih2
      simp only [drain, hf, if_false]
      exact ⟨by rw [hu, ih2.1], ih2.2⟩

/-- Claim C3. No data loss under backpressure. In every state reachable from `rx_fifo_init`
and for every value, `rx_fifo_put` returns `RXFIFOFAIL` exactly when the producer
cursor advanced by one slot with wrap equals the consumer cursor; in that case the
storage and both cursors are as before, the buffer holds the same `RXFIFOSIZE - 1`
unread entries, and a drain that follows delivers exactly them, in order. -/
theorem fifo_overflow_keeps_content (s : RxFifo) (v d : Nat) (hr : Reachable s) :
    ((rx_fifo_put s v).1 = RXFIFOFAIL ↔ (s.rx_put_pt + 1) % RXFIFOSIZE = s.rx_get_pt) ∧
    ((rx_fifo_put s v).1 = RXFIFOFAIL →
      (rx_fifo_put s v).2.RX_FIFO = s.RX_FIFO ∧
      (rx_fifo_put s v).2.rx_put_pt = s.rx_put_pt ∧
      (rx_fifo_put s v).2.rx_get_pt = s.rx_get_pt ∧
      unread (rx_fifo_put s v).2 = unread s ∧
      (unread s).length = RXFIFOSIZE - 1 ∧
      (drain RXFIFOSIZE (sys (rx_fifo_put s v).2 d)).1 = unread s) := by
  have hin := inRange_of_reachable hr
  refine ⟨?_, ?_⟩
  · rw [put_fail_iff_count s v hin]
    unfold InRange count RXFIFOSIZE at *
    omega
  · intro hf
    have hst := put_fail_state s v hf
    have hc := (put_fail_iff_count s v hin).mp hf
    rw [hst]
    refine ⟨rfl, rfl, rfl, rfl, ?_, ?_⟩
    · rw [unread_length, hc]
    · exact (drain_unread RXFIFOSIZE (sys s d) hin (count_lt s)).1

/-- Claim C4. Underflow is atomic. For every state, `rx_fifo_get` returns `RXFIFOFAIL` if
and only if the producer cursor equals the consumer cursor, and in that case the
output location, both cursors and the storage are as before the call. -/
theorem fifo_underflow_atomic (s : RxFifo) (datapt : Nat) :
    ((rx_fifo_get s datapt).1 = RXFIFOFAIL ↔ s.rx_put_pt = s.rx_get_pt) ∧
    ((rx_fifo_get s datapt).1 = RXFIFOFAIL →
      (rx_fifo_get s datapt).2.2 = datapt ∧
      (rx_fifo_get s datapt).2.1.rx_put_pt = s.rx_put_pt ∧
      (rx_fifo_get s datapt).2.1.rx_get_pt = s.rx_get_pt ∧
      (rx_fifo_get s datapt).2.1.RX_FIFO = s.RX_FIFO) := by
  refine ⟨?_, ?_⟩
  · unfold rx_fifo_get RXFIFOFAIL RXFIFOSUCCUSS
    dsimp only
    split_ifs with h <;> simp [h]
  · intro hf
    rw [get_fail_state s datapt hf]
    exact ⟨rfl, rfl, rfl, rfl⟩

theorem reachable_call (σ : Sys) (c : Call) (h : Reachable σ.fifo) :
    Reachable (call σ c).2.fifo := by
  cases c with
  | put data => exact Reachable.put σ.fifo data h
  | get => exact Reachable.get σ.fifo σ.datapt h

theorem reachable_final (σ : Sys) (cs : List Call) (h : Reachable σ.fifo) :
    Reachable (final σ cs).fifo := by
  induction cs generalizing σ with
  | nil => exact h
  | cons c cs ih => exact ih _ (reachable_call σ c h)

/-- As many gets as there are unread entries all succeed, deliver the unread entries
in order and leave the buffer empty. -/
theorem gets_succeed (k : Nat) (σ : Sys) (h : InRange σ.fifo) (hk : count σ.fifo = k) :
    (trace σ (List.replicate k Call.get)).map Event.status = List.replicate k RXFIFOSUCCUSS ∧
    getValues (trace σ (List.replicate k Call.get)) = unread σ.fifo ∧
    (final σ (List.replicate k Call.get)).fifo.rx_put_pt
      = (final σ (List.replicate k Call.get)).fifo.rx_get_pt := by
  induction k generalizing σ with
  | zero =>
    have hu : unread σ.fifo = [] := by
      apply List.eq_nil_of_length_eq_zero
      rw [unread_length, hk]
    refine ⟨by simp [trace], by simp [trace, getValues, hu], ?_⟩
    simp only [List.replicate_zero, final]
    unfold InRange count RXFIFOSIZE at *
    omega
  | succ k ih =>
    have hne : (rx_fifo_get σ.fifo σ.datapt).1 ≠ RXFIFOFAIL := by
      intro hf
      have := (get_fail_iff_count σ.fifo σ.datapt h).mp hf
      omega
    have hs : (rx_fifo_get σ.fifo σ.datapt).1 = RXFIFOSUCCUSS := by
      rcases get_status σ.fifo σ.datapt with h1 | h1
      · exact absurd h1 hne
      · exact h1
    have hc := count_get σ.fifo σ.datapt h hne
    have hu := unread_get σ.fifo σ.datapt h hne
    have ih2 := ih (call σ Call.get).2 (inRange_call σ Call.get h)
      (by simp only [call]; omega)
    simp only [call] at ih2
    have hne2 : ¬ RXFIFOSUCCUSS = RXFIFOFAIL := by decide
    simp only [List.replicate_succ, trace, final, call, List.map_cons, getValues, hs, hne2,
      if_false]
    exact ⟨by rw [ih2.1], by rw [ih2.2.1, hu], ih2.2.2⟩

/-- On an empty buffer, as long as no put succeeds nothing changes and every get fails. -/
theorem empty_stays_empty (cs : List Call) (σ : Sys)
    (hempty : σ.fifo.rx_put_pt = σ.fifo.rx_get_pt)
    (hput : ∀ e ∈ trace σ cs, e.op ≠ Call.get → e.status = RXFIFOFAIL) :
    ∀ e ∈ trace σ cs, e.op = Call.get → e.status = RXFIFOFAIL := by
  induction cs generalizing σ with
  | nil => simp [trace]
  | cons c cs ih =>
    have hstat : (call σ c).1 = RXFIFOFAIL := by
      cases c with
      | put data =>
        exact hput ⟨Call.put data, (call σ (Call.put data)).1, (call σ (Call.put data)).2.datapt⟩
          (by simp [trace]) (by simp)
      | get =>
        simp only [call]
        unfold rx_fifo_get
        simp [hempty]
    have hsame : (call σ c).2 = σ := by
      cases c with
      | put data =>
        simp only [call] at hstat ⊢
        rw [put_fail_state σ.fifo data hstat]
      | get =>
        simp only [call] at hstat ⊢
        rw [get_fail_state σ.fifo σ.datapt hstat]
    intro e he hop
    simp only [trace, List.mem_cons] at he
    rcases he with he | he
    · rw [he]; exact hstat
    · rw [hsame] at he
      refine ih σ hempty ?_ e he hop
      intro e2 he2 hop2
      exact hput e2 (by simp only [trace, List.mem_cons]; right; rw [hsame]; exact he2) hop2

/-- Claim C5. Empty after drain. From every state reachable from `rx_fifo_init`, repeated
`rx_fifo_get` calls succeed exactly as many times as there are unread entries, which is
at most `RXFIFOSIZE - 1`, delivering them in order, and the next call returns
`RXFIFOFAIL`; from then on, in every continuation in which no `rx_fifo_put` succeeds,
every `rx_fifo_get` returns `RXFIFOFAIL`. -/
theorem fifo_empty_after_drain (s : RxFifo) (d : Nat) (cs : List Call) (hr : Reachable s)
    (hput : ∀ e ∈ trace (final (sys s d) (List.replicate ((unread s).length + 1) Call.get)) cs,
      e.op ≠ Call.get → e.status = RXFIFOFAIL) :
    (unread s).length ≤ RXFIFOSIZE - 1 ∧
    (trace (sys s d) (List.replicate ((unread s).length + 1) Call.get)).map Event.status
      = List.replicate (unread s).length RXFIFOSUCCUSS ++ [RXFIFOFAIL] ∧
    getValues (trace (sys s d) (List.replicate ((unread s).length + 1) Call.get)) = unread s ∧
    ∀ e ∈ trace (final (sys s d) (List.replicate ((unread s).length + 1) Call.get)) cs,
      e.op = Call.get → e.status = RXFIFOFAIL := by
  have hin := inRange_of_reachable hr
  have hg := gets_succeed (count s) (sys s d) hin rfl
  have hlt := count_lt s
  rw [unread_length] at hput ⊢
  have hsplit : List.replicate (count s + 1) Call.get
      = List.replicate (count s) Call.get ++ [Call.get] := by
    rw [List.replicate_succ']
  rw [hsplit] at hput ⊢
  rw [final_append] at hput ⊢
  rw [trace_append]
  have hfail : (rx_fifo_get (final (sys s d) (List.replicate (count s) Call.get)).fifo
      (final (sys s d) (List.replicate (count s) Call.get)).datapt).1 = RXFIFOFAIL := by
    unfold rx_fifo_get
    simp [hg.2.2]
  have hsame := get_fail_state _ _ hfail
  have hfin : final (final (sys s d) (List.replicate (count s) Call.get)) [Call.get]
      = final (sys s d) (List.replicate (count s) Call.get) := by
    simp only [final, call, hsame]
  rw [hfin] at hput ⊢
  refine ⟨by unfold RXFIFOSIZE at *; omega, ?_, ?_, ?_⟩
  · rw [List.map_append, hg.1]
    simp [trace, call, hfail]
  · have hgv : ∀ as bs : List Event, getValues (as ++ bs) = getValues as ++ getValues bs := by
      intro as bs
      induction as with
      | nil => rfl
      | cons a as ih =>
        simp only [List.cons_append, getValues]
        split <;> [exact ih; (split_ifs <;> simp [ih])]
    rw [hgv, hg.2.1]
    have hsys : unread (sys s d).fifo = unread s := rfl
    rw [hsys]
    simp [trace, call, getValues, hfail]
  · exact empty_stays_empty cs _ hg.2.2 hput

/-- After an init, `RXFIFOSIZE - 1` puts fill the buffer. -/
theorem full_after_puts (s : RxFifo) (d : Nat) (vs : List Nat)
    (hlen : vs.length = RXFIFOSIZE - 1) :
    count (final (sys (rx_fifo_init s) d) (vs.map Call.put)).fifo = RXFIFOSIZE - 1 := by
  have hc0 : count (rx_fifo_init s) = 0 := by simp [count, rx_fifo_init, RXFIFOSIZE]
  have hp := puts_succeed vs (sys (rx_fifo_init s) d) (inRange_init s)
    (by simp only [sys]; rw [hc0, hlen]; simp)
  rw [hp.2]
  simp only [sys]
  rw [hc0, hlen]
  simp

/-- Witness of claim C3: the full buffer reached by an init and 299 puts; a further put
fails and the drain after it delivers the 299 entries. -/
theorem fifo_overflow_keeps_content_witness :
    Reachable fullState ∧
    (rx_fifo_put fullState 42).1 = RXFIFOFAIL ∧
    (unread fullState).length = RXFIFOSIZE - 1 ∧
    (drain RXFIFOSIZE (sys (rx_fifo_put fullState 42).2 0)).1 = unread fullState :=
  have hr : Reachable fullState :=
    reachable_final (sys (rx_fifo_init exState) 0) _ (Reachable.init exState)
  have hf : (rx_fifo_put fullState 42).1 = RXFIFOFAIL :=
    (put_fail_iff_count fullState 42 (inRange_of_reachable hr)).mpr
      (full_after_puts exState 0 (List.range 299) (by simp [RXFIFOSIZE]))
  ⟨hr, hf, ((fifo_overflow_keeps_content fullState 42 0 hr).2 hf).2.2.2.2.1,
    ((fifo_overflow_keeps_content fullState 42 0 hr).2 hf).2.2.2.2.2⟩

/-- Witness of claim C5: two unread entries, three gets, then two more gets. -/
theorem fifo_empty_after_drain_witness :
    Reachable twoState ∧
    (trace (sys twoState 0) (List.replicate ((unread twoState).length + 1) Call.get)).map
        Event.status
      = List.replicate (unread twoState).length RXFIFOSUCCUSS ++ [RXFIFOFAIL] ∧
    ∀ e ∈ trace (final (sys twoState 0)
        (List.replicate ((unread twoState).length + 1) Call.get)) [Call.get, Call.get],
      e.op = Call.get → e.status = RXFIFOFAIL :=
  have hr : Reachable twoState :=
    Reachable.put _ 8 (Reachable.put _ 7 (Reachable.init exState))
  ⟨hr, (fifo_empty_after_drain twoState 0 [Call.get, Call.get] hr (by decide)).2.1,
    (fifo_empty_after_drain twoState 0 [Call.get, Call.get] hr (by decide)).2.2.2⟩

/-- Claim C6. `rx_fifo_init` has no precondition. From every state it sets both cursors to
slot 0 and leaves the storage as it was; no entry is unread afterwards: the next
`rx_fifo_get` returns `RXFIFOFAIL` and the `RXFIFOSIZE - 1` puts that follow all
succeed, whatever the values. -/
theorem fifo_init_resets (s : RxFifo) (d : Nat) (vs : List Nat)
    (hlen : vs.length = RXFIFOSIZE - 1) :
    (rx_fifo_init s).rx_put_pt = 0 ∧
    (rx_fifo_init s).rx_get_pt = 0 ∧
    (rx_fifo_init s).RX_FIFO = s.RX_FIFO ∧
    unread (rx_fifo_init s) = [] ∧
    (rx_fifo_get (rx_fifo_init s) d).1 = RXFIFOFAIL ∧
    (trace (sys (rx_fifo_init s) d) (vs.map Call.put)).map Event.status
      = List.replicate (RXFIFOSIZE - 1) RXFIFOSUCCUSS ∧
    (trace (sys (rx_fifo_init s) d) (Call.get :: vs.map Call.put)).map Event.status
      = RXFIFOFAIL :: List.replicate (RXFIFOSIZE - 1) RXFIFOSUCCUSS := by
  have hc0 : count (rx_fifo_init s) = 0 := by simp [count, rx_fifo_init, RXFIFOSIZE]
  have hp := puts_succeed vs (sys (rx_fifo_init s) d) (inRange_init s)
    (by simp only [sys]; rw [hc0, hlen]; simp)
  have hf : (rx_fifo_get (rx_fifo_init s) d).1 = RXFIFOFAIL := by
    simp [rx_fifo_get, rx_fifo_init]
  have hsame := get_fail_state (rx_fifo_init s) d hf
  rw [hlen] at hp
  refine ⟨rfl, rfl, rfl, unread_init s, hf, hp.1, ?_⟩
  have hcall : (call (sys (rx_fifo_init s) d) Call.get).2 = sys (rx_fifo_init s) d := by
    simp only [call, sys, hsame]
  have hstat : (call (sys (rx_fifo_init s) d) Call.get).1 = RXFIFOFAIL := hf
  simp only [trace, List.map_cons, hcall, hstat, hp.1]

/-- Witness of claim C6: an init on a state with stray cursors, then a get and 299 puts. -/
theorem fifo_init_resets_witness :
    (rx_fifo_init exState).rx_put_pt = 0 ∧
    (rx_fifo_init exState).rx_get_pt = 0 ∧
    (trace (sys (rx_fifo_init exState) 0)
        (Call.get :: (List.range 299).map Call.put)).map Event.status
      = RXFIFOFAIL :: List.replicate (RXFIFOSIZE - 1) RXFIFOSUCCUSS :=
  ⟨(fifo_init_resets exState 0 (List.range 299) (by simp [RXFIFOSIZE])).1,
    (fifo_init_resets exState 0 (List.range 299) (by simp [RXFIFOSIZE])).2.1,
    (fifo_init_resets exState 0 (List.range 299) (by simp [RXFIFOSIZE])).2.2.2.2.2.2⟩

/-- Claim C7. Cursor ownership. For every state and argument: `rx_fifo_put` leaves the
consumer cursor as it was and, when it succeeds, sets the slot at the old producer
position to the value, leaves every other slot, and advances the producer cursor by
one, wrapping to 0 at `RXFIFOSIZE`; `rx_fifo_get` leaves the producer cursor and every
slot as they were and, when it succeeds, advances the consumer cursor by one, wrapping
to 0 at `RXFIFOSIZE`, and hands the slot at the old consumer position to the caller. -/
theorem fifo_frame (s : RxFifo) (data datapt : Nat) :
    (rx_fifo_put s data).2.rx_get_pt = s.rx_get_pt ∧
    ((rx_fifo_put s data).1 = RXFIFOSUCCUSS →
      (rx_fifo_put s data).2.RX_FIFO s.rx_put_pt = data ∧
      (∀ j, j ≠ s.rx_put_pt → (rx_fifo_put s data).2.RX_FIFO j = s.RX_FIFO j) ∧
      (rx_fifo_put s data).2.rx_put_pt
        = (if s.rx_put_pt + 1 = RXFIFOSIZE then 0 else s.rx_put_pt + 1)) ∧
    (rx_fifo_get s datapt).2.1.rx_put_pt = s.rx_put_pt ∧
    (rx_fifo_get s datapt).2.1.RX_FIFO = s.RX_FIFO ∧
    ((rx_fifo_get s datapt).1 = RXFIFOSUCCUSS →
      (rx_fifo_get s datapt).2.1.rx_get_pt
        = (if s.rx_get_pt + 1 = RXFIFOSIZE then 0 else s.rx_get_pt + 1) ∧
      (rx_fifo_get s datapt).2.2 = s.RX_FIFO s.rx_get_pt) := by
  have hne : RXFIFOSUCCUSS ≠ RXFIFOFAIL := by decide
  refine ⟨?_, ?_, ?_, ?_, ?_⟩
  · unfold rx_fifo_put
    dsimp only
    split_ifs <;> rfl
  · intro hs
    obtain ⟨hm, _, hp⟩ := put_success_fields s data (by rw [hs]; exact hne)
    refine ⟨by simp [hm, store], ?_, hp⟩
    intro j hj
    simp [hm, store, hj]
  · unfold rx_fifo_get
    dsimp only
    split_ifs <;> rfl
  · unfold rx_fifo_get
    dsimp only
    split_ifs <;> rfl
  · intro hs
    obtain ⟨_, _, hg, hd⟩ := get_success_fields s datapt (by rw [hs]; exact hne)
    exact ⟨hg, hd⟩

/-- Claim C8. No unread entry is overwritten. In every state reachable from
`rx_fifo_init`, the slot a successful `rx_fifo_put` writes is none of the slots holding
an unread entry (from the consumer cursor up to, excluding, the producer cursor,
circularly); and over any one call every unread slot keeps its value and stays unread,
unless the call is a successful `rx_fifo_get` that hands this very entry to the
caller. -/
theorem fifo_no_overwrite (s : RxFifo) (d : Nat) (c : Call) (hr : Reachable s) :
    (∀ data, (rx_fifo_put s data).1 = RXFIFOSUCCUSS →
      (rx_fifo_put s data).2.RX_FIFO = store s.RX_FIFO s.rx_put_pt data ∧
      s.rx_put_pt ∉ unreadSlots s) ∧
    ∀ j ∈ unreadSlots s,
      (call (sys s d) c).2.fifo.RX_FIFO j = s.RX_FIFO j ∧
      (j ∈ unreadSlots (call (sys s d) c).2.fifo ∨
        (c = Call.get ∧ (call (sys s d) c).1 = RXFIFOSUCCUSS ∧ j = s.rx_get_pt ∧
          (call (sys s d) c).2.datapt = s.RX_FIFO j)) := by
  have hin := inRange_of_reachable hr
  have hne : RXFIFOSUCCUSS ≠ RXFIFOFAIL := by decide
  refine ⟨fun data hs =>
    ⟨(put_success_fields s data (by rw [hs]; exact hne)).1, put_pt_not_unread s⟩, ?_⟩
  intro j hj
  have hnp : j ≠ s.rx_put_pt := fun e => put_pt_not_unread s (e ▸ hj)
  cases c with
  | put data =>
    simp only [call, sys]
    by_cases hf : (rx_fifo_put s data).1 = RXFIFOFAIL
    · rw [put_fail_state s data hf]
      exact ⟨rfl, Or.inl hj⟩
    · obtain ⟨hm, _, _⟩ := put_success_fields s data hf
      refine ⟨by simp [hm, store, hnp], Or.inl ?_⟩
      rw [unreadSlots_put s data hin hf]
      exact List.mem_append_left _ hj
  | get =>
    simp only [call, sys]
    by_cases hf : (rx_fifo_get s d).1 = RXFIFOFAIL
    · rw [get_fail_state s d hf]
      exact ⟨rfl, Or.inl hj⟩
    · obtain ⟨hm, _, _, hd⟩ := get_success_fields s d hf
      refine ⟨by rw [hm], ?_⟩
      have hu := unreadSlots_get s d hin hf
      rw [hu, List.mem_cons] at hj
      have hs : (rx_fifo_get s d).1 = RXFIFOSUCCUSS := by
        rcases get_status s d with h1 | h1
        · exact absurd h1 hf
        · exact h1
      rcases hj with hj | hj
      · exact Or.inr ⟨trivial, hs, hj, by rw [hd, hj]⟩
      · exact Or.inl hj

/-- Witness of claim C8: with slots 0 and 1 unread, the put of 9 succeeds and writes slot
2, which is not unread, and slot 1 keeps its value 8 and stays unread. -/
theorem fifo_no_overwrite_witness :
    Reachable twoState ∧ unreadSlots twoState = [0, 1] ∧
    (rx_fifo_put twoState 9).1 = RXFIFOSUCCUSS ∧ twoState.rx_put_pt = 2 ∧
    twoState.rx_put_pt ∉ unreadSlots twoState ∧
    (call (sys twoState 0) (Call.put 9)).2.fifo.RX_FIFO 1 = twoState.RX_FIFO 1 ∧
    twoState.RX_FIFO 1 = 8 :=
  have hr : Reachable twoState :=
    Reachable.put _ 8 (Reachable.put _ 7 (Reachable.init exState))
  ⟨hr, by decide, by decide, by decide,
    ((fifo_no_overwrite twoState 0 (Call.put 9) hr).1 9 (by decide)).2,
    ((fifo_no_overwrite twoState 0 (Call.put 9) hr).2 1 (by decide)).1, by decide⟩

end Fifo

namespace Fir

/-! ## The FIR filter engine -/

/-- Claim C9. FIR convolution, evaluated on the code. Kernel `[1, 1, 1]`, zeroed history,
write cursor 0, sample 5: after the sample is written the history is `[5, 0, 0]` and the
cursor is 1, the sum over the three taps of `kernel[i] * history[(c - 1 - i) mod 3]` is
5, and `fir_filter_update` stores and returns 0, the product of the last tap alone. -/
theorem fir_update_overwrites :
    fir_filter_update ⟨some [0, 0, 0], 0, [1, 1, 1], 3, 0⟩ 5
      = some (⟨some [5, 0, 0], 1, [1, 1, 1], 3, 0⟩, 0) ∧
    firSum [1, 1, 1] [5, 0, 0] 1 3 = 5 := by
  constructor
  · simp [fir_filter_update, fir_loop, fir_tap, List.range, List.range.loop]
  · simp [firSum, List.range, List.range.loop]

/-- Claim C10. FIR cold start, evaluated on the code. Kernel `[1, 1, 1]` and the inputs
`5, 0, 0` right after `fir_fiter_init`: the cold-start sums are `5, 5, 5` and the
outputs of `fir_filter_update` are `0, 0, 5`. -/
theorem fir_cold_start_outputs :
    (fir_run (fir_fiter_init true exFir [1, 1, 1] 3) [5, 0, 0]).map Prod.snd
      = some [0, 0, 5] ∧
    (List.range 3).map (fun n => coldStartSum [1, 1, 1] [5, 0, 0] (n + 1)) = [5, 5, 5] := by
  constructor
  · simp [fir_run, fir_filter_update, fir_fiter_init, calloc, fir_loop, fir_tap, exFir,
      List.range, List.range.loop]
  · simp [coldStartSum, List.range, List.range.loop]

end Fir

namespace Fifo

/-! ## Cursor range and the interrupt inside `rx_fifo_get` -/

/-- The statements of `rx_fifo_get` run without interrupt are the call `rx_fifo_get`. -/
theorem get_statements_eq (data : Nat) (σ : Sys) (k : Nat) (hk : 5 < k) :
    get_with_interrupt k data σ = ((call σ Call.get).1, none, (call σ Call.get).2) := by
  have h0 : k ≠ 0 := by omega
  have h1 : k ≠ 1 := by omega
  have h2 : k ≠ 2 := by omega
  have h3 : k ≠ 3 := by omega
  have h4 : k ≠ 4 := by omega
  have h5 : ¬ k ≤ 5 := by omega
  have h6 : k ≠ 5 := by omega
  by_cases he : σ.fifo.rx_put_pt = σ.fifo.rx_get_pt
  · simp [get_with_interrupt, fire, h0, h5, he, call, rx_fifo_get]
  · simp only [get_with_interrupt, fire, h0, h1, h2, h3, h4, h6, if_false, he, call,
      rx_fifo_get, get_load, get_incr, get_wrap]
    split_ifs <;> simp_all

/-- Claim C19. Cursor range and occupancy. In every state reachable from `rx_fifo_init`
by any calls of `rx_fifo_put` and `rx_fifo_get`, successful or not, both cursors are slot
indices in `[0, RXFIFOSIZE)`, and they still are after a further call of either
function returns; so the slot a put writes and the slot a get reads are in bounds; and
the number of unread entries `(producer - consumer) mod RXFIFOSIZE` is at most
`RXFIFOSIZE - 1`. -/
theorem fifo_cursor_range (s : RxFifo) (data d : Nat) (hr : Reachable s) :
    s.rx_put_pt < RXFIFOSIZE ∧ s.rx_get_pt < RXFIFOSIZE ∧
    (rx_fifo_put s data).2.rx_put_pt < RXFIFOSIZE ∧
    (rx_fifo_put s data).2.rx_get_pt < RXFIFOSIZE ∧
    (rx_fifo_get s d).2.1.rx_put_pt < RXFIFOSIZE ∧
    (rx_fifo_get s d).2.1.rx_get_pt < RXFIFOSIZE ∧
    (((s.rx_put_pt : Int) - (s.rx_get_pt : Int)) % (RXFIFOSIZE : Int)).toNat = count s ∧
    count s ≤ RXFIFOSIZE - 1 := by
  have h := inRange_of_reachable hr
  have hp := inRange_put s data h
  have hg := inRange_get s d h
  refine ⟨h.1, h.2, hp.1, hp.2, hg.1, hg.2, ?_, ?_⟩
  · unfold InRange count RXFIFOSIZE at *
    omega
  · have := count_lt s
    unfold RXFIFOSIZE at *
    omega

/-- Witness of claim C19: the state after an init and two puts. -/
theorem fifo_cursor_range_witness :
    Reachable twoState ∧ twoState.rx_put_pt < RXFIFOSIZE ∧ twoState.rx_get_pt < RXFIFOSIZE ∧
    count twoState ≤ RXFIFOSIZE - 1 :=
  have hr : Reachable twoState :=
    Reachable.put _ 8 (Reachable.put _ 7 (Reachable.init exState))
  ⟨hr, (fifo_cursor_range twoState 9 0 hr).1, (fifo_cursor_range twoState 9 0 hr).2.1,
    (fifo_cursor_range twoState 9 0 hr).2.2.2.2.2.2.2⟩

/-- Claim C16. Single producer, single consumer without locks. In every state reachable
from `rx_fifo_init`, when one complete `rx_fifo_put` runs at any statement boundary of an
`rx_fifo_get` call, also between the increment of the consumer cursor and its wrap to
slot 0, the two statuses, the value delivered and the state at the end are those of
the two calls run one after the other, in one of the two orders. -/
theorem fifo_interrupt_sequential (s : RxFifo) (d data k : Nat) (hr : Reachable s)
    (hk : k ≤ 5) :
    get_with_interrupt k data (sys s d) = put_then_get data (sys s d) ∨
    get_with_interrupt k data (sys s d) = get_then_put data (sys s d) := by
  have h := inRange_of_reachable hr
  unfold InRange RXFIFOSIZE at h
  obtain ⟨hp, hg⟩ := h
  rcases s with ⟨f, p, g⟩
  simp only at hp hg
  interval_cases k <;>
    simp only [get_with_interrupt, put_then_get, get_then_put, fire, call, sys, rx_fifo_get,
      rx_fifo_put, get_load, get_incr, get_wrap, RXFIFOSIZE, RXFIFOFAIL, RXFIFOSUCCUSS] <;>
    by_cases h1 : p + 1 = 300 <;> by_cases h2 : g + 1 = 300 <;> by_cases e0 : p = g <;>
      by_cases pf : (if p + 1 = 300 then 0 else p + 1) = g <;>
      simp [h1, h2, e0, pf] <;> first
        | omega
        | simp_all

/-- Witness of claim C16: the consumer cursor at the last slot, the interrupt between the
wrap test and the wrap to slot 0. -/
theorem fifo_interrupt_sequential_witness :
    Reachable wrapState ∧
    (get_with_interrupt 4 9 (sys wrapState 0) = put_then_get 9 (sys wrapState 0) ∨
      get_with_interrupt 4 9 (sys wrapState 0) = get_then_put 9 (sys wrapState 0)) :=
  have hr : Reachable wrapState :=
    reachable_final (sys (rx_fifo_init exState) 0) _ (Reachable.init exState)
  ⟨hr, fifo_interrupt_sequential wrapState 0 9 4 hr (by decide)⟩

end Fifo

namespace Fir

/-! ## Helper lemmas on the FIR filter -/

/-- The causal index without integer arithmetic. -/
theorem causalIdx_eq (c i L : Nat) (hi : i < L) :
    causalIdx c i L = (c + L - (i + 1)) % L := by
  unfold causalIdx
  have h1 : ((c : Int) - 1 - (i : Int)) = ((c + L - (i + 1) : Nat) : Int) + (-1) * (L : Int) := by
    omega
  rw [h1, Int.add_mul_emod_self, ← Int.natCast_mod, Int.toNat_ofNat]

theorem wrap_sub (c L m : Nat) (hc : c < L) (hm : m ≤ L) (hm1 : 1 ≤ m) :
    (c + L - m) % L = if m ≤ c then c - m else c + L - m := by
  split_ifs with h
  · have : c + L - m = (c - m) + L := by omega
    rw [this, Nat.add_mod_right, Nat.mod_eq_of_lt (by omega)]
  · exact Nat.mod_eq_of_lt (by omega)

theorem getElem?_eq_some_getD (l : List ℚ) (i : Nat) (h : i < l.length) :
    l[i]? = some (l.getD i 0) := by
  simp [List.getD_eq_getElem?_getD, List.getElem?_eq_getElem h]

/-- The logged loop after `n` runs of the body, in closed form. -/
theorem fir_loop_log_upto (kernel buff : List ℚ) (L c : Nat) (o : ℚ)
    (hk : L ≤ kernel.length) (hb : buff.length = L) (hc : c < L) (n : Nat) (hn : n ≤ L) :
    (List.range n).foldlM (fir_tap_log kernel buff L) ((c, o), [])
      = some ((if n ≤ c then c - n else c + L - n,
          if n = 0 then o
          else kernel.getD (n - 1) 0 * buff.getD (if n ≤ c then c - n else c + L - n) 0),
        (List.range n).map (fun i => (i, if i + 1 ≤ c then c - (i + 1) else c + L - (i + 1)))) := by
  induction n with
  | zero => simp
  | succ n ih =>
    rw [List.range_succ, List.foldlM_append, ih (by omega)]
    have hidx : (if (if n ≤ c then c - n else c + L - n) > 0
        then (if n ≤ c then c - n else c + L - n) - 1 else L - 1)
        = if n + 1 ≤ c then c - (n + 1) else c + L - (n + 1) := by
      split_ifs <;> omega
    have hlt : (if n + 1 ≤ c then c - (n + 1) else c + L - (n + 1)) < buff.length := by
      split_ifs <;> omega
    simp only [Option.some_bind, Option.bind_eq_bind, List.foldlM_cons, List.foldlM_nil, fir_tap_log, fir_tap, hidx,
      getElem?_eq_some_getD kernel n (by omega), getElem?_eq_some_getD buff _ hlt]
    simp [List.range_succ]

/-- Dropping the log of the logged loop gives the loop. -/
theorem fir_foldlM_log_fst (kernel buff : List ℚ) (L : Nat) (l : List Nat)
    (st : Nat × ℚ) (log : List (Nat × Nat)) :
    (l.foldlM (fir_tap_log kernel buff L) (st, log)).map Prod.fst
      = l.foldlM (fir_tap kernel buff L) st := by
  induction l generalizing st log with
  | nil => simp
  | cons i l ih =>
    simp only [List.foldlM_cons, fir_tap_log]
    cases h : fir_tap kernel buff L st i with
    | none => simp
    | some st1 => simpa using ih st1 (log ++ [(i, st1.1)])

/-- The loop in closed form: it ends with `sum_idx` back at the cursor and `out` the
product of the last tap and the slot at the cursor. -/
theorem fir_loop_eq (kernel buff : List ℚ) (L c : Nat) (o : ℚ) (hL : 1 ≤ L)
    (hk : L ≤ kernel.length) (hb : buff.length = L) (hc : c < L) :
    fir_loop kernel buff L (c, o) = some (c, kernel.getD (L - 1) 0 * buff.getD c 0) := by
  unfold fir_loop
  rw [← fir_foldlM_log_fst kernel buff L (List.range L) (c, o) [],
    fir_loop_log_upto kernel buff L c o hk hb hc L (Nat.le_refl L)]
  have h1 : ¬ L ≤ c := by omega
  have h2 : L ≠ 0 := by omega
  have h3 : c + L - L = c := by omega
  simp [h1, h2, h3]

/-- One update on a well-formed filter, in closed form. -/
theorem fir_update_eq (fir : fir_filter_t) (b : List ℚ) (x : ℚ) (L : Nat) (hL : 1 ≤ L)
    (h32 : L < 2 ^ 32) (hbuf : fir.buff = some b) (hb : b.length = L)
    (hkl : fir.kernel_len = L) (hk : L ≤ fir.kernel.length) (hc : fir.buff_idx < L) :
    fir_filter_update fir x
      = some ({ fir with
            buff := some (b.set fir.buff_idx x)
            buff_idx := if fir.buff_idx + 1 = L then 0 else fir.buff_idx + 1
            out := fir.kernel.getD (L - 1) 0
              * (b.set fir.buff_idx x).getD (if fir.buff_idx + 1 = L then 0 else fir.buff_idx + 1) 0 },
          fir.kernel.getD (L - 1) 0
            * (b.set fir.buff_idx x).getD (if fir.buff_idx + 1 = L then 0 else fir.buff_idx + 1) 0) := by
  have hmod : (fir.buff_idx + 1) % 2 ^ 32 = fir.buff_idx + 1 := Nat.mod_eq_of_lt (by omega)
  have hc2 : (if fir.buff_idx + 1 = L then 0 else fir.buff_idx + 1) < L := by
    split_ifs <;> omega
  have hloop := fir_loop_eq fir.kernel (b.set fir.buff_idx x) L
    (if fir.buff_idx + 1 = L then 0 else fir.buff_idx + 1) 0 hL hk (by simp [hb]) hc2
  unfold fir_filter_update
  simp only [hbuf, hb, hc, if_true, hmod, hkl, hloop]

theorem fir_run_snoc (fir : fir_filter_t) (xs : List ℚ) (x : ℚ) :
    fir_run fir (xs ++ [x])
      = match fir_run fir xs with
        | none => none
        | some r =>
          match fir_filter_update r.1 x with
          | none => none
          | some u => some (u.1, r.2 ++ [u.2]) := by
  induction xs generalizing fir with
  | nil =>
    cases hx : fir_filter_update fir x <;> simp [fir_run, hx]
  | cons y ys ih =>
    cases hy : fir_filter_update fir y with
    | none => simp [fir_run, hy]
    | some r =>
      have ih2 := ih r.1
      cases hr : fir_run r.1 ys with
      | none =>
        rw [hr] at ih2
        simp [fir_run, hy, hr, ih2]
      | some rest =>
        rw [hr] at ih2
        simp only at ih2
        cases hu : fir_filter_update rest.1 x with
        | none =>
          rw [hu] at ih2
          simp [fir_run, hy, hr, ih2, hu]
        | some u =>
          rw [hu] at ih2
          simp [fir_run, hy, hr, ih2, hu]

theorem sample_snoc_le (xs : List ℚ) (x : ℚ) (j : Nat) (hj : j ≤ xs.length) :
    sample (xs ++ [x]) j = sample xs j := by
  unfold sample
  split_ifs with h0
  · rfl
  · simp only [List.getD_eq_getElem?_getD]
    rw [List.getElem?_append_left (by omega)]

theorem sample_snoc_last (xs : List ℚ) (x : ℚ) :
    sample (xs ++ [x]) (xs.length + 1) = x := by
  simp [sample, List.getD_eq_getElem?_getD]

theorem getD_set_eq (b : List ℚ) (c : Nat) (x : ℚ) (hc : c < b.length) :
    (b.set c x).getD c 0 = x := by
  simp [List.getD_eq_getElem?_getD, hc]

theorem getD_set_ne (b : List ℚ) (c j : Nat) (x : ℚ) (hne : j ≠ c) :
    (b.set c x).getD j 0 = b.getD j 0 := by
  simp [List.getD_eq_getElem?_getD, List.getElem?_set_ne (Ne.symm hne)]

/-- State and outputs after any run of updates from a successful init. -/
theorem fir_run_spec (kernel : List ℚ) (L : Nat) (fir0 : fir_filter_t) (xs : List ℚ)
    (hL : 1 ≤ L) (h32 : L < 2 ^ 32) (hk : kernel.length = L) :
    ∃ fir outs b, fir_run (fir_fiter_init true fir0 kernel L) xs = some (fir, outs) ∧
      fir.buff = some b ∧ b.length = L ∧ fir.kernel = kernel ∧ fir.kernel_len = L ∧
      fir.buff_idx = xs.length % L ∧
      (∀ i, i < L → b.getD ((fir.buff_idx + L - (i + 1)) % L) 0
        = if i < xs.length then sample xs (xs.length - i) else 0) ∧
      outs.length = xs.length ∧
      (∀ m, 1 ≤ m → m ≤ xs.length → outs.getD (m - 1) 0
        = kernel.getD (L - 1) 0 * (if L ≤ m then sample xs (m + 1 - L) else 0)) ∧
      fir.out = outs.getLastD 0 := by
  induction xs using List.reverseRecOn with
  | nil =>
    refine ⟨fir_fiter_init true fir0 kernel L, [], List.replicate L 0, rfl, ?_, ?_, rfl, rfl,
      ?_, ?_, rfl, ?_, rfl⟩
    · simp [fir_fiter_init, calloc]
    · simp
    · simp [fir_fiter_init]
    · intro i hi
      simp only [List.getD_eq_getElem?_getD, List.getElem?_replicate, List.length_nil,
        Nat.not_lt_zero, if_false]
      split_ifs <;> rfl
    · intro m h1 h2
      simp at h2
      omega
  | append_singleton xs x ih =>
    obtain ⟨fir, outs, b, hrun, hbuf, hb, hker, hkl, hidx, hhist, hlen, houts, hout⟩ := ih
    have hc : fir.buff_idx < L := by rw [hidx]; exact Nat.mod_lt _ (by omega)
    have hup := fir_update_eq fir b x L hL h32 hbuf hb hkl (by rw [hker, hk]) hc
    have hc2 : (if fir.buff_idx + 1 = L then 0 else fir.buff_idx + 1) < L := by
      split_ifs <;> omega
    have hhist2 : ∀ i, i < L →
        (b.set fir.buff_idx x).getD
          (((if fir.buff_idx + 1 = L then 0 else fir.buff_idx + 1) + L - (i + 1)) % L) 0
        = if i < (xs ++ [x]).length then sample (xs ++ [x]) ((xs ++ [x]).length - i) else 0 := by
      intro i hi
      rw [wrap_sub _ L (i + 1) hc2 (by omega) (by omega)]
      simp only [List.length_append, List.length_singleton]
      by_cases hi0 : i = 0
      · subst hi0
        have hj : (if 0 + 1 ≤ (if fir.buff_idx + 1 = L then 0 else fir.buff_idx + 1)
            then (if fir.buff_idx + 1 = L then 0 else fir.buff_idx + 1) - (0 + 1)
            else (if fir.buff_idx + 1 = L then 0 else fir.buff_idx + 1) + L - (0 + 1))
            = fir.buff_idx := by
          split_ifs <;> omega
        rw [hj, getD_set_eq b _ x (by omega)]
        simp [sample_snoc_last]
      · have hj : (if i + 1 ≤ (if fir.buff_idx + 1 = L then 0 else fir.buff_idx + 1)
            then (if fir.buff_idx + 1 = L then 0 else fir.buff_idx + 1) - (i + 1)
            else (if fir.buff_idx + 1 = L then 0 else fir.buff_idx + 1) + L - (i + 1))
            = if (i - 1) + 1 ≤ fir.buff_idx then fir.buff_idx - ((i - 1) + 1)
              else fir.buff_idx + L - ((i - 1) + 1) := by
          split_ifs <;> omega
        have hne : (if (i - 1) + 1 ≤ fir.buff_idx then fir.buff_idx - ((i - 1) + 1)
              else fir.buff_idx + L - ((i - 1) + 1)) ≠ fir.buff_idx := by
          split_ifs <;> omega
        rw [hj, getD_set_ne b _ _ x hne, ← wrap_sub _ L ((i - 1) + 1) hc (by omega) (by omega),
          hhist (i - 1) (by omega)]
        by_cases hin : i - 1 < xs.length
        · have h1 : i < xs.length + 1 := by omega
          have h2 : xs.length + 1 - i = xs.length - (i - 1) := by omega
          rw [if_pos hin, if_pos h1, h2, sample_snoc_le xs x _ (by omega)]
        · have h1 : ¬ i < xs.length + 1 := by omega
          rw [if_neg hin, if_neg h1]
    refine ⟨{ fir with
          buff := some (b.set fir.buff_idx x)
          buff_idx := if fir.buff_idx + 1 = L then 0 else fir.buff_idx + 1
          out := fir.kernel.getD (L - 1) 0 * (b.set fir.buff_idx x).getD
            (if fir.buff_idx + 1 = L then 0 else fir.buff_idx + 1) 0 },
      outs ++ [fir.kernel.getD (L - 1) 0 * (b.set fir.buff_idx x).getD
            (if fir.buff_idx + 1 = L then 0 else fir.buff_idx + 1) 0],
      b.set fir.buff_idx x, ?_, rfl, by simp [hb], hker, hkl, ?_, hhist2,
      by simp [hlen], ?_, by simp⟩
    · rw [fir_run_snoc, hrun]
      simp only [hup]
    · simp only [List.length_append, List.length_singleton]
      rw [← Nat.mod_add_mod, ← hidx]
      split_ifs with h
      · rw [h, Nat.mod_self]
      · exact (Nat.mod_eq_of_lt (by omega)).symm
    · intro m h1 h2
      simp only [List.length_append, List.length_singleton] at h2
      by_cases hm : m ≤ xs.length
      · have e1 : (outs ++ [fir.kernel.getD (L - 1) 0 *
            (b.set fir.buff_idx x).getD (if fir.buff_idx + 1 = L then 0 else fir.buff_idx + 1) 0]).getD
            (m - 1) 0 = outs.getD (m - 1) 0 := by
          simp only [List.getD_eq_getElem?_getD]
          rw [List.getElem?_append_left (by omega)]
        rw [e1, houts m h1 hm]
        split_ifs with hLm
        · rw [sample_snoc_le xs x _ (by omega)]
        · rfl
      · have hm2 : m = xs.length + 1 := by omega
        subst hm2
        have e1 : (outs ++ [fir.kernel.getD (L - 1) 0 *
            (b.set fir.buff_idx x).getD (if fir.buff_idx + 1 = L then 0 else fir.buff_idx + 1) 0]).getD
            (xs.length + 1 - 1) 0 = fir.kernel.getD (L - 1) 0 *
            (b.set fir.buff_idx x).getD (if fir.buff_idx + 1 = L then 0 else fir.buff_idx + 1) 0 := by
          simp [List.getD_eq_getElem?_getD, hlen]
        rw [e1, hker]
        congr 1
        have h3 := hhist2 (L - 1) (by omega)
        have h4 : ((if fir.buff_idx + 1 = L then 0 else fir.buff_idx + 1) + L - (L - 1 + 1)) % L
            = (if fir.buff_idx + 1 = L then 0 else fir.buff_idx + 1) := by
          have : (if fir.buff_idx + 1 = L then 0 else fir.buff_idx + 1) + L - (L - 1 + 1)
              = (if fir.buff_idx + 1 = L then 0 else fir.buff_idx + 1) := by omega
          rw [this, Nat.mod_eq_of_lt hc2]
        rw [h4] at h3
        rw [h3]
        simp only [List.length_append, List.length_singleton]
        by_cases hLm : L ≤ xs.length + 1
        · have h5 : L - 1 < xs.length + 1 := by omega
          have h6 : xs.length + 1 - (L - 1) = xs.length + 1 + 1 - L := by omega
          rw [if_pos hLm, if_pos h5, h6]
        · have h5 : ¬ L - 1 < xs.length + 1 := by omega
          rw [if_neg hLm, if_neg h5]

/-- The logged loop, whole: the index pairs are those of the causal definition. -/
theorem fir_loop_log_causal (kernel buff : List ℚ) (L c : Nat) (o : ℚ) (hL : 1 ≤ L)
    (hk : L ≤ kernel.length) (hb : buff.length = L) (hc : c < L) :
    fir_loop_log kernel buff L (c, o)
      = some ((c, kernel.getD (L - 1) 0 * buff.getD c 0),
          (List.range L).map (fun i => (i, causalIdx c i L))) := by
  unfold fir_loop_log
  rw [fir_loop_log_upto kernel buff L c o hk hb hc L (Nat.le_refl L)]
  have h1 : ¬ L ≤ c := by omega
  have h2 : L ≠ 0 := by omega
  have h3 : c + L - L = c := by omega
  simp only [h1, h2, h3, if_false, Option.some.injEq, Prod.mk.injEq, true_and]
  apply List.map_congr_left
  intro i hi
  rw [List.mem_range] at hi
  rw [causalIdx_eq c i L hi, wrap_sub c L (i + 1) hc (by omega) (by omega)]

/-! ## The FIR filter engine, continued -/

/-- Claim C11. FIR steady state, evaluated on the code. Kernel `[0.5, 0.3, 0.2]` and the
inputs `1, 2, 3, 4` right after `fir_fiter_init`: the steady-state sum for the fourth
output is `0.5*4 + 0.3*3 + 0.2*2 = 3.3`, and the outputs of `fir_filter_update` are
`0, 0, 0.2, 0.4`: the fourth is `0.2 * 2`, the product of the last tap alone. -/
theorem fir_steady_state_outputs :
    (fir_run (fir_fiter_init true exFir [1 / 2, 3 / 10, 1 / 5] 3) [1, 2, 3, 4]).map Prod.snd
      = some [0, 0, 1 / 5, 2 / 5] ∧
    steadySum [1 / 2, 3 / 10, 1 / 5] [1, 2, 3, 4] 4 3 = 33 / 10 := by
  constructor
  · simp [fir_run, fir_filter_update, fir_fiter_init, calloc, fir_loop, fir_tap, exFir,
      List.range, List.range.loop]
    norm_num
  · simp [steadySum, List.range, List.range.loop]
    norm_num

/-- No update changes the kernel or the kernel length. -/
theorem fir_update_kernel (f f1 : fir_filter_t) (y o : ℚ)
    (h : fir_filter_update f y = some (f1, o)) :
    f1.kernel = f.kernel ∧ f1.kernel_len = f.kernel_len := by
  unfold fir_filter_update at h
  split at h
  · cases h
  · split at h
    · dsimp only at h
      split at h
      · cases h
      · simp only [Option.some.injEq, Prod.mk.injEq] at h
        rw [← h.1]
        exact ⟨rfl, rfl⟩
    · cases h

/-- Claim C12. Kernel-length invariance. For every kernel length `L ≥ 1` (a `uint32_t`),
so for 1, 2 and 32, and after any number of `fir_filter_update` calls from a successful
`fir_fiter_init`: the history and the kernel have `L` entries, the write cursor is
`< L` before the next call, which is the index the call writes the history at; the
call returns, its cursor is `< L` afterwards, and its loop runs the body exactly `L`
times, each time with a kernel index and a history index `< L`. -/
theorem fir_in_bounds (kernel : List ℚ) (L : Nat) (fir0 : fir_filter_t) (xs : List ℚ) (x : ℚ)
    (hL : 1 ≤ L) (h32 : L < 2 ^ 32) (hk : kernel.length = L) :
    ∃ fir outs b fir1 out r log,
      fir_run (fir_fiter_init true fir0 kernel L) xs = some (fir, outs) ∧
      fir.buff = some b ∧ b.length = L ∧ fir.kernel.length = L ∧ fir.kernel_len = L ∧
      fir.buff_idx < L ∧
      fir_filter_update fir x = some (fir1, out) ∧
      fir1.buff = some (b.set fir.buff_idx x) ∧ (b.set fir.buff_idx x).length = L ∧
      fir1.buff_idx < L ∧
      fir_loop_log fir.kernel (b.set fir.buff_idx x) fir.kernel_len (fir1.buff_idx, 0)
        = some (r, log) ∧
      fir_loop fir.kernel (b.set fir.buff_idx x) fir.kernel_len (fir1.buff_idx, 0) = some r ∧
      log.length = L ∧ ∀ p ∈ log, p.1 < L ∧ p.2 < L := by
  obtain ⟨fir, outs, b, hrun, hbuf, hb, hker, hkl, hidx, _, _, _, _⟩ :=
    fir_run_spec kernel L fir0 xs hL h32 hk
  have hc : fir.buff_idx < L := by rw [hidx]; exact Nat.mod_lt _ (by omega)
  have hkl2 : L ≤ fir.kernel.length := by rw [hker, hk]
  have hup := fir_update_eq fir b x L hL h32 hbuf hb hkl hkl2 hc
  have hc2 : (if fir.buff_idx + 1 = L then 0 else fir.buff_idx + 1) < L := by
    split_ifs <;> omega
  have hb2 : (b.set fir.buff_idx x).length = L := by simp [hb]
  have hlog := fir_loop_log_causal fir.kernel (b.set fir.buff_idx x) L _ 0 hL hkl2 hb2 hc2
  have hloop := fir_loop_eq fir.kernel (b.set fir.buff_idx x) L _ 0 hL hkl2 hb2 hc2
  refine ⟨fir, outs, b, _, _, _, _, hrun, hbuf, hb, by rw [hker, hk], hkl, hc, hup, rfl, hb2,
    hc2, by rw [hkl]; exact hlog, by rw [hkl]; exact hloop, by simp, ?_⟩
  intro p hp
  obtain ⟨i, hi, rfl⟩ := List.mem_map.mp hp
  rw [List.mem_range] at hi
  refine ⟨hi, ?_⟩
  simp only
  rw [causalIdx_eq _ i L hi]
  exact Nat.mod_lt _ (by omega)

/-- Witness of claim C12: kernel length 2, three samples supplied, a fourth coming. -/
theorem fir_in_bounds_witness :
    ∃ fir outs b fir1 out r log,
      fir_run (fir_fiter_init true exFir [1, 2] 2) [5, 6, 7] = some (fir, outs) ∧
      fir.buff = some b ∧ b.length = 2 ∧ fir.kernel.length = 2 ∧ fir.kernel_len = 2 ∧
      fir.buff_idx < 2 ∧
      fir_filter_update fir 8 = some (fir1, out) ∧
      fir1.buff = some (b.set fir.buff_idx 8) ∧ (b.set fir.buff_idx 8).length = 2 ∧
      fir1.buff_idx < 2 ∧
      fir_loop_log fir.kernel (b.set fir.buff_idx 8) fir.kernel_len (fir1.buff_idx, 0)
        = some (r, log) ∧
      fir_loop fir.kernel (b.set fir.buff_idx 8) fir.kernel_len (fir1.buff_idx, 0) = some r ∧
      log.length = 2 ∧ ∀ p ∈ log, p.1 < 2 ∧ p.2 < 2 :=
  fir_in_bounds [1, 2] 2 exFir [5, 6, 7] 8 (by decide) (by decide) (by decide)

/-- Claim C13. FIR history invariant. For every kernel length `L ≥ 1` and every input
sequence `x_1..x_n` fed to `fir_filter_update` after a successful `fir_fiter_init`: the
write cursor is `n mod L`, the history has `L` entries, the slot
`history[(cursor - 1 - i) mod L]` holds `x_(n-i)` when `i < n` and 0 otherwise, for
every `i` in `[0, L)`; the cursor is the slot of the oldest held sample (`i = L - 1`);
and no update changes the kernel or the kernel length. -/
theorem fir_history_invariant (kernel : List ℚ) (L : Nat) (fir0 : fir_filter_t) (xs : List ℚ)
    (hL : 1 ≤ L) (h32 : L < 2 ^ 32) (hk : kernel.length = L) :
    (∃ fir outs b,
      fir_run (fir_fiter_init true fir0 kernel L) xs = some (fir, outs) ∧
      fir.buff_idx = xs.length % L ∧
      fir.buff = some b ∧ b.length = L ∧
      (∀ i, i < L → b.getD (causalIdx fir.buff_idx i L) 0
        = if i < xs.length then sample xs (xs.length - i) else 0) ∧
      causalIdx fir.buff_idx (L - 1) L = fir.buff_idx ∧
      fir.kernel = kernel ∧ fir.kernel_len = L) ∧
    (∀ (f f1 : fir_filter_t) (y o : ℚ), fir_filter_update f y = some (f1, o) →
      f1.kernel = f.kernel ∧ f1.kernel_len = f.kernel_len) := by
  constructor
  · obtain ⟨fir, outs, b, hrun, hbuf, hb, hker, hkl, hidx, hhist, _, _, _⟩ :=
      fir_run_spec kernel L fir0 xs hL h32 hk
    have hc : fir.buff_idx < L := by rw [hidx]; exact Nat.mod_lt _ (by omega)
    refine ⟨fir, outs, b, hrun, hidx, hbuf, hb, ?_, ?_, hker, hkl⟩
    · intro i hi
      rw [causalIdx_eq _ i L hi]
      exact hhist i hi
    · rw [causalIdx_eq _ (L - 1) L (by omega)]
      have : fir.buff_idx + L - (L - 1 + 1) = fir.buff_idx := by omega
      rw [this, Nat.mod_eq_of_lt hc]
  · intro f f1 y o h
    exact fir_update_kernel f f1 y o h

/-- Witness of claim C13: kernel length 3 and the samples 5, 6, 7, 8. -/
theorem fir_history_invariant_witness :
    ∃ fir outs b,
      fir_run (fir_fiter_init true exFir [1, 2, 3] 3) [5, 6, 7, 8] = some (fir, outs) ∧
      fir.buff_idx = [(5 : ℚ), 6, 7, 8].length % 3 ∧
      fir.buff = some b ∧ b.length = 3 ∧
      (∀ i, i < 3 → b.getD (causalIdx fir.buff_idx i 3) 0
        = if i < [(5 : ℚ), 6, 7, 8].length
          then sample [5, 6, 7, 8] ([(5 : ℚ), 6, 7, 8].length - i) else 0) ∧
      causalIdx fir.buff_idx (3 - 1) 3 = fir.buff_idx ∧
      fir.kernel = [1, 2, 3] ∧ fir.kernel_len = 3 :=
  (fir_history_invariant [1, 2, 3] 3 exFir [5, 6, 7, 8] (by decide) (by decide) (by decide)).1

/-- Claim C14. Postcondition of `fir_fiter_init`. For every kernel and length `L`, when
the history storage is obtained, the filter afterwards refers to the caller's kernel
with `kernel_len = L`, has a history of exactly `L` entries all zero, write cursor 0
and last output 0, whatever the structure contained before. -/
theorem fir_init_post (fir : fir_filter_t) (kernel : List ℚ) (L : Nat) :
    (fir_fiter_init true fir kernel L).kernel = kernel ∧
    (fir_fiter_init true fir kernel L).kernel_len = L ∧
    (∃ b, (fir_fiter_init true fir kernel L).buff = some b ∧ b.length = L ∧
      ∀ j, j < L → b[j]? = some 0) ∧
    (fir_fiter_init true fir kernel L).buff_idx = 0 ∧
    (fir_fiter_init true fir kernel L).out = 0 := by
  refine ⟨rfl, rfl, ⟨List.replicate L 0, ?_, ?_, ?_⟩, rfl, rfl⟩
  · simp [fir_fiter_init, calloc]
  · simp
  · intro j hj
    simp [List.getElem?_replicate, hj]

/-- Claim C15, as stated, fails: `fir_fiter_init` hands no result value to its caller, so
no reading of the value returned tells a failed allocation from a successful one. -/
theorem fir_init_no_result :
    ¬ ∃ signal : Unit → Bool,
      signal (fir_fiter_init_result false exFir [1, 1, 1] 3) = true ∧
      signal (fir_fiter_init_result true exFir [1, 1, 1] 3) = false := by
  rintro ⟨signal, h1, h2⟩
  have h : fir_fiter_init_result false exFir [1, 1, 1] 3
      = fir_fiter_init_result true exFir [1, 1, 1] 3 := rfl
  rw [h, h2] at h1
  cases h1

/-- Claim C15, amended. `fir_fiter_init` returns no result value and does not test what
the allocator returned: the history pointer left in the structure is null if and only
if the allocation failed, the other fields are set as when it succeeds, and the value
handed back is the same in both cases. -/
theorem fir_init_alloc_failure (room : Bool) (fir : fir_filter_t) (kernel : List ℚ)
    (L : Nat) :
    ((fir_fiter_init room fir kernel L).buff = none ↔ room = false) ∧
    (fir_fiter_init room fir kernel L).kernel = kernel ∧
    (fir_fiter_init room fir kernel L).kernel_len = L ∧
    (fir_fiter_init room fir kernel L).buff_idx = 0 ∧
    (fir_fiter_init room fir kernel L).out = 0 ∧
    fir_fiter_init_result room fir kernel L = fir_fiter_init_result (!room) fir kernel L := by
  refine ⟨?_, rfl, rfl, rfl, rfl, rfl⟩
  cases room <;> simp [fir_fiter_init, calloc]

/-- Claim C17. The convolution overwrites rather than accumulates. For every kernel of
length `L ≥ 1`, every history with write cursor `< L` and every sample, the value
`fir_filter_update` stores in `out` and returns is the single product
`kernel[L-1] * history[c]`, with `history` the history after the write and `c` the
cursor after the advance; after `n` updates from a successful init the `n`-th output is
`kernel[L-1] * x_(n-L+1)`, and 0 while `n < L`; and this is not the sum over the taps:
on kernel `[1, 1, 1]`, zeroed history and sample 5 the value is 0 and the sum is 5. -/
theorem fir_update_single_product (fir : fir_filter_t) (b : List ℚ) (x : ℚ) (L : Nat)
    (kernel : List ℚ) (fir0 : fir_filter_t) (xs : List ℚ)
    (hL : 1 ≤ L) (h32 : L < 2 ^ 32) (hbuf : fir.buff = some b) (hb : b.length = L)
    (hkl : fir.kernel_len = L) (hk : fir.kernel.length = L) (hc : fir.buff_idx < L)
    (hk0 : kernel.length = L) :
    (∃ fir1 b1, fir1.buff = some b1 ∧ b1 = b.set fir.buff_idx x ∧
      fir1.buff_idx = (fir.buff_idx + 1) % L ∧
      fir_filter_update fir x = some (fir1, fir.kernel.getD (L - 1) 0 * b1.getD fir1.buff_idx 0) ∧
      fir1.out = fir.kernel.getD (L - 1) 0 * b1.getD fir1.buff_idx 0) ∧
    (∃ firn outs, fir_run (fir_fiter_init true fir0 kernel L) xs = some (firn, outs) ∧
      outs.length = xs.length ∧
      ∀ n, 1 ≤ n → n ≤ xs.length → outs.getD (n - 1) 0
        = kernel.getD (L - 1) 0 * (if L ≤ n then sample xs (n + 1 - L) else 0)) ∧
    ((fir_filter_update ⟨some [0, 0, 0], 0, [1, 1, 1], 3, 0⟩ 5).map Prod.snd = some 0 ∧
      firSum [1, 1, 1] [5, 0, 0] 1 3 = 5) := by
  refine ⟨?_, ?_, ?_, ?_⟩
  · have hup := fir_update_eq fir b x L hL h32 hbuf hb hkl (by omega) hc
    have hmod : (fir.buff_idx + 1) % L = if fir.buff_idx + 1 = L then 0 else fir.buff_idx + 1 := by
      split_ifs with h
      · rw [h, Nat.mod_self]
      · exact Nat.mod_eq_of_lt (by omega)
    rw [← hmod] at hup
    exact ⟨_, b.set fir.buff_idx x, rfl, rfl, rfl, hup, rfl⟩
  · obtain ⟨firn, outs, _, hrun, _, _, _, _, _, _, hlen, houts, _⟩ :=
      fir_run_spec kernel L fir0 xs hL h32 hk0
    exact ⟨firn, outs, hrun, hlen, houts⟩
  · simp [fir_filter_update, fir_loop, fir_tap, List.range, List.range.loop]
  · simp [firSum, List.range, List.range.loop]

/-- Witness of claim C17: kernel `[1, 2, 3]`, history `[5, 6, 7]` with cursor 1 and the
sample 9; and the run of `5, 6, 7, 8` from an init. -/
theorem fir_update_single_product_witness :
    (∃ fir1 b1, fir1.buff = some b1 ∧ b1 = [5, 9, 7] ∧ fir1.buff_idx = 2 ∧
      fir_filter_update ⟨some [5, 6, 7], 1, [1, 2, 3], 3, 0⟩ 9
        = some (fir1, 3 * b1.getD fir1.buff_idx 0) ∧
      fir1.out = 3 * b1.getD fir1.buff_idx 0) ∧
    (∃ firn outs, fir_run (fir_fiter_init true exFir [1, 2, 3] 3) [5, 6, 7, 8]
        = some (firn, outs) ∧
      outs.length = 4 ∧
      ∀ n, 1 ≤ n → n ≤ 4 → outs.getD (n - 1) 0
        = 3 * (if 3 ≤ n then sample [5, 6, 7, 8] (n + 1 - 3) else 0)) :=
  ⟨(fir_update_single_product ⟨some [5, 6, 7], 1, [1, 2, 3], 3, 0⟩ [5, 6, 7] 9 3 [1, 2, 3]
      exFir [5, 6, 7, 8] (by decide) (by decide) rfl rfl rfl rfl (by decide) rfl).1,
    (fir_update_single_product ⟨some [5, 6, 7], 1, [1, 2, 3], 3, 0⟩ [5, 6, 7] 9 3 [1, 2, 3]
      exFir [5, 6, 7, 8] (by decide) (by decide) rfl rfl rfl rfl (by decide) rfl).2.1⟩

/-- Claim C18, as stated, fails: there is no kernel length `L ≥ 1`, cursor `c < L` and tap
`i < L` at which the history index the loop pairs with `kernel[i]` differs from
`(c - 1 - i) mod L`. -/
theorem fir_index_no_misalignment :
    ¬ ∃ (L c i j : Nat) (kernel buff : List ℚ) (o : ℚ) (r : (Nat × ℚ) × List (Nat × Nat)),
      1 ≤ L ∧ c < L ∧ i < L ∧ kernel.length = L ∧ buff.length = L ∧
      fir_loop_log kernel buff L (c, o) = some r ∧ r.2[i]? = some (i, j) ∧
      j ≠ causalIdx c i L := by
  rintro ⟨L, c, i, j, kernel, buff, o, r, hL, hc, hi, hk, hb, hlog, hget, hne⟩
  rw [fir_loop_log_causal kernel buff L c o hL (by omega) hb hc] at hlog
  simp only [Option.some.injEq] at hlog
  rw [← hlog] at hget
  simp [List.getElem?_map, List.getElem?_range, hi] at hget
  exact hne hget.symm

/-- Claim C18, amended. The loop keeps the tap and history indices aligned with the causal
FIR definition: for every length `L ≥ 1`, cursor `c < L` (after the advance), kernel and
history of `L` entries, the loop pairs each tap `i` in `[0, L)`, in order, with the
history index `(c - 1 - i) mod L`. -/
theorem fir_index_aligned (kernel buff : List ℚ) (L c : Nat) (o : ℚ) (hL : 1 ≤ L)
    (hk : kernel.length = L) (hb : buff.length = L) (hc : c < L) :
    ∃ r, fir_loop_log kernel buff L (c, o) = some r ∧
      fir_loop kernel buff L (c, o) = some r.1 ∧
      r.2 = (List.range L).map (fun i => (i, causalIdx c i L)) :=
  ⟨_, fir_loop_log_causal kernel buff L c o hL (by omega) hb hc,
    fir_loop_eq kernel buff L c o hL (by omega) hb hc, rfl⟩

/-- Witness of claim C18, amended: length 3 and cursor 1 give the pairs (0, 0), (1, 2),
(2, 1). -/
theorem fir_index_aligned_witness :
    ∃ r, fir_loop_log [1, 2, 3] [5, 6, 7] 3 (1, 0) = some r ∧
      fir_loop [1, 2, 3] [5, 6, 7] 3 (1, 0) = some r.1 ∧
      r.2 = (List.range 3).map (fun i => (i, causalIdx 1 i 3)) :=
  fir_index_aligned [1, 2, 3] [5, 6, 7] 3 1 0 (by decide) rfl rfl (by decide)

end Fir

namespace Tim

/-! ## The timer -/

/-- Claim C20, as stated, fails: on zeroed registers and with the 100 MHz timer clock, the
update-interrupt rate `clock / ((PSC + 1) * (ARR + 1))` that `tim2_1hz_interrupt_init`
programs is not 1 Hz. -/
theorem tim2_rate_not_1hz :
    updateRate TIM2_CLOCK_HZ (tim2_1hz_interrupt_init exRegs) ≠ 1 := by
  simp only [updateRate, tim2_1hz_interrupt_init, TIM2_CLOCK_HZ, exRegs]
  norm_num

/-- Claim C20, amended. Whatever the registers held before, `tim2_1hz_interrupt_init`
leaves `PSC = 10000 - 1` and `ARR = 10 - 1`, as its comments compute
(`100 000 000 / 10 000 = 10000`, then `10000/10`), so that with the 100 MHz timer clock
the update-interrupt rate `clock / ((PSC + 1) * (ARR + 1))` is 1000 Hz. -/
theorem tim2_rate (r : Regs) :
    (tim2_1hz_interrupt_init r).PSC = 9999 ∧
    (tim2_1hz_interrupt_init r).ARR = 9 ∧
    updateRate TIM2_CLOCK_HZ (tim2_1hz_interrupt_init r) = 1000 := by
  refine ⟨rfl, rfl, ?_⟩
  simp only [updateRate, tim2_1hz_interrupt_init, TIM2_CLOCK_HZ]
  norm_num

end Tim
